import Mathlib

/-!
The SMART-report scoring engine of hd_analyze.

A shallow embedding of the two scorers of the repository,
`determineHealth` / `calculateHealthPercentage` (health.go) and
`calculatePerformancePercentage` / `extractAttributeValue` / `normalizeValue`
(performance.go), together with the parts of the Go standard library they call
(`strings.Contains`, `strings.Split`, `strconv.Atoi`, `regexp.FindStringSubmatch`).

A Go string is modelled by the list of its characters, a Go `int` by a mathematical
integer kept inside the 64-bit two's-complement range by `wrapInt`, and a run-time
panic (integer division by zero) by `none`.
-/

namespace HdAnalyze

/-! ## Go `int` arithmetic (64-bit targets) -/

/-- Smallest value of a 64-bit Go `int`. -/
def minInt : Int := -9223372036854775808

/-- Largest value of a 64-bit Go `int`. -/
def maxInt : Int := 9223372036854775807

/-- Two's-complement wrap-around of a mathematical integer into the `int` range. -/
def wrapInt (x : Int) : Int := (x + 9223372036854775808) % 18446744073709551616 - 9223372036854775808

/-- Go `a + b` on `int`. -/
def goAdd (a b : Int) : Int := wrapInt (a + b)

/-- Go `a - b` on `int`. -/
def goSub (a b : Int) : Int := wrapInt (a - b)

/-- Go `a * b` on `int`. -/
def goMul (a b : Int) : Int := wrapInt (a * b)

/-- Go `a / b` on `int` for a divisor known to be non-zero: the quotient truncated
towards zero (the only overflowing case, `minInt / -1`, wraps). -/
def goQuo (a b : Int) : Int := wrapInt (Int.tdiv a b)

/-- Go `a / b` on `int`: a zero divisor is a run-time panic, modelled by `none`. -/
def goDiv (a b : Int) : Option Int := if b = 0 then none else some (goQuo a b)

end HdAnalyze

/-! ## package strings -/

namespace strings

/-- Go `strings.Contains(s, substr)`: `substr` occurs somewhere within `s`. -/
def Contains : List Char → List Char → Bool
  | [], substr => substr.isEmpty
  | c :: cs, substr => substr.isPrefixOf (c :: cs) || Contains cs substr

/-- Go `strings.Split(s, sep)` for a one-character separator (the source only ever
splits on a newline): the pieces of `s` between the separators; the result is never empty. -/
def Split : List Char → Char → List (List Char)
  | [], _ => [[]]
  | c :: cs, sep =>
    if c = sep then [] :: Split cs sep
    else
      match Split cs sep with
      | [] => [[c]]
      | piece :: pieces => (c :: piece) :: pieces

end strings

/-! ## package strconv -/

namespace strconv

/-- The two kinds of error of `strconv.Atoi`. -/
inductive NumError where
  | ErrSyntax
  | ErrRange
  deriving DecidableEq, Repr

/-- The natural number written by a string of decimal digits. -/
def decimalValue (digits : List Char) : Nat :=
  digits.foldl (fun n ch => n * 10 + (ch.toNat - 48)) 0

/-- Go `strconv.Atoi(s)` on a 64-bit target: an optional sign followed by one or more
decimal digits. A syntax error returns 0; a number outside the `int` range returns the
nearest `int` together with `ErrRange`. -/
def Atoi (s : List Char) : Int × Option NumError :=
  match s with
  | [] => (0, some NumError.ErrSyntax)
  | c :: cs =>
    let neg : Bool := c = '-'
    let digits : List Char := if c = '-' ∨ c = '+' then cs else c :: cs
    if digits.isEmpty || !digits.all Char.isDigit then (0, some NumError.ErrSyntax)
    else
      let un : Nat := decimalValue digits
      if neg then
        if un > 9223372036854775808 then (-9223372036854775808, some NumError.ErrRange)
        else (-(un : Int), none)
      else
        if un ≥ 9223372036854775808 then (9223372036854775807, some NumError.ErrRange)
        else ((un : Int), none)

end strconv

/-! ## package regexp

The two patterns of the source use literals, greedy repetitions of a character class and
non-nested capturing groups; the matcher below is the backtracking (leftmost-first)
semantics of Go's `regexp` for that fragment. -/

namespace regexp

/-- Regular expressions: the fragment of the syntax used by the source. -/
inductive Regexp where
  /-- A literal text. -/
  | lit : List Char → Regexp
  /-- Greedy `c+` for a character class `c`. -/
  | plus : (Char → Bool) → Regexp
  /-- Greedy `c*` for a character class `c`. -/
  | star : (Char → Bool) → Regexp
  /-- A capturing group `(r)`. -/
  | group : Regexp → Regexp
  /-- Concatenation. -/
  | seq : Regexp → Regexp → Regexp

/-- The class `\s` of Go regular expressions: tab, newline, form feed, carriage return, space. -/
def isSpace (c : Char) : Bool :=
  c = '\t' || c = '\n' || c = Char.ofNat 12 || c = '\r' || c = ' '

/-- The class `\d` of Go regular expressions: `0` to `9`. -/
def isDigit (c : Char) : Bool := c.isDigit

/-- The class `.` of Go regular expressions (no `s` flag): anything but a newline. -/
def isAnyNotNL (c : Char) : Bool := c != '\n'

/-- Greedy repetition of a character class followed by the continuation `k`: the longest
repetition is tried first, and one character is given back at a time while `k` fails. -/
def starRun {α : Type} (p : Char → Bool) : List Char → (List Char → Option α) → Option α
  | [], k => k []
  | c :: cs, k =>
    if p c then
      match starRun p cs k with
      | some r => some r
      | none => k (c :: cs)
    else k (c :: cs)

/-- Backtracking match of `re` at the start of `s`, in continuation-passing style:
`k rest caps` continues the match on the unread text `rest` with the texts `caps` of the
groups closed so far (in order; groups are not nested in the source's patterns). -/
def Regexp.run {α : Type} :
    Regexp → List Char → List (List Char) → (List Char → List (List Char) → Option α) → Option α
  | .lit l, s, caps, k => if l.isPrefixOf s then k (s.drop l.length) caps else none
  | .plus p, s, caps, k =>
    match s with
    | [] => none
    | c :: cs => if p c then starRun p cs (fun rest => k rest caps) else none
  | .star p, s, caps, k => starRun p s (fun rest => k rest caps)
  | .group r, s, caps, k =>
    r.run s caps (fun rest caps1 => k rest (caps1 ++ [s.take (s.length - rest.length)]))
  | .seq a b, s, caps, k => a.run s caps (fun rest caps1 => b.run rest caps1 k)

/-- The match of `re` starting exactly at the beginning of `s`, if any: the matched text
followed by the texts of the groups. -/
def Regexp.matchAt (re : Regexp) (s : List Char) : Option (List (List Char)) :=
  re.run s [] (fun rest caps => some (s.take (s.length - rest.length) :: caps))

/-- Go `re.FindStringSubmatch(s)`: the leftmost match of `re` in `s` as the list of the
matched text and the texts of its groups; the empty list (Go `nil`) when there is none. -/
def Regexp.FindStringSubmatch (re : Regexp) : List Char → List (List Char)
  | [] =>
    match re.matchAt [] with
    | some m => m
    | none => []
  | c :: cs =>
    match re.matchAt (c :: cs) with
    | some m => m
    | none => Regexp.FindStringSubmatch re cs

end regexp

namespace HdAnalyze

open regexp

/-! ## health.go -/

/-- The pattern compiled in `calculateHealthPercentage`:
`RAW_VALUE\s+(\d+).*THRESHOLD\s+(\d+)`. -/
def healthPattern : Regexp :=
  .seq (.lit "RAW_VALUE".data)
    (.seq (.plus isSpace)
      (.seq (.group (.plus isDigit))
        (.seq (.star isAnyNotNL)
          (.seq (.lit "THRESHOLD".data)
            (.seq (.plus isSpace) (.group (.plus isDigit)))))))

/-- The loop of `calculateHealthPercentage` (health.go 103-115): the values of `rawValue`
and `threshold` when the loop over the lines is left. Both start at 0; the first line
that contains both markers and on which the pattern yields three submatches sets them
(the errors of `Atoi` are discarded) and ends the loop. -/
def scanRawThreshold : List (List Char) → Int × Int
  | [] => (0, 0)
  | line :: lines =>
    if strings.Contains line "RAW_VALUE".data && strings.Contains line "THRESHOLD".data then
      match healthPattern.FindStringSubmatch line with
      | [_, m1, m2] => ((strconv.Atoi m1).1, (strconv.Atoi m2).1)
      | _ => scanRawThreshold lines
    else scanRawThreshold lines

/-- The arithmetic of `calculateHealthPercentage` after the loop (health.go 117-129);
`none` is the panic of a division by zero. -/
def healthFromValues (rawValue threshold : Int) : Option Int :=
  if threshold = 0 then some 100
  else
    match goDiv (goMul (goSub rawValue threshold) 100) threshold with
    | none => none
    | some q =>
      let healthPercentage := goSub 100 q
      if healthPercentage < 0 then some 0
      else if healthPercentage > 100 then some 100
      else some healthPercentage

/-- Go `calculateHealthPercentage(smartOutput)` (health.go 100-130). -/
def calculateHealthPercentage (smartOutput : String) : Option Int :=
  let lines := strings.Split smartOutput.data '\n'
  let values := scanRawThreshold lines
  healthFromValues values.1 values.2

/-- Go `determineHealth(smartOutput)` (health.go 87-98): the status and the percentage. -/
def determineHealth (smartOutput : String) : Option (String × Int) :=
  if strings.Contains smartOutput.data "PASSED".data then
    match calculateHealthPercentage smartOutput with
    | none => none
    | some healthPercentage => some ("healthy", healthPercentage)
  else if strings.Contains smartOutput.data "FAILED".data then some ("failing", 0)
  else some ("unknown", 50)

/-! ## performance.go -/

/-- The pattern compiled in `extractAttributeValue`: `(\d+)`. -/
def digitsPattern : Regexp := .group (.plus isDigit)

/-- Go `extractAttributeValue(line)` (performance.go 132-142). -/
def extractAttributeValue (line : List Char) : Int :=
  match digitsPattern.FindStringSubmatch line with
  | _ :: m1 :: _ =>
    match strconv.Atoi m1 with
    | (value, none) => value
    | (_, some _) => 0
  | _ => 0

/-- Go `normalizeValue(value)` (performance.go 144-151). -/
def normalizeValue (value : Int) : Int :=
  if value < 0 then 0
  else if value > 100 then 100
  else value

/-- The local variables of `calculatePerformancePercentage` that the loop updates.
`count` is at most the number of lines and so never overflows. -/
structure PerfVars where
  throughput : Int
  seekTime : Int
  latency : Int
  count : Nat
  deriving DecidableEq, Repr

/-- One iteration of the loop of `calculatePerformancePercentage` (performance.go 93-110). -/
def perfStep (v : PerfVars) (line : List Char) : PerfVars :=
  if strings.Contains line "Throughput Performance".data then
    let throughput := extractAttributeValue line
    { v with throughput := throughput, count := if throughput > 0 then v.count + 1 else v.count }
  else if strings.Contains line "Seek Time Performance".data then
    let seekTime := extractAttributeValue line
    { v with seekTime := seekTime, count := if seekTime > 0 then v.count + 1 else v.count }
  else if strings.Contains line "Command Timeout".data then
    let latency := extractAttributeValue line
    { v with latency := latency, count := if latency > 0 then v.count + 1 else v.count }
  else v

/-- The part of `calculatePerformancePercentage` after the loop (performance.go 112-129). -/
def perfFromVars (v : PerfVars) : Int :=
  if v.count = 0 then 100
  else
    let throughput := normalizeValue v.throughput
    let seekTime := normalizeValue v.seekTime
    let latency := normalizeValue v.latency
    let performancePercentage :=
      goQuo (goAdd (goAdd throughput (goSub 100 seekTime)) (goSub 100 latency)) 3
    if performancePercentage < 0 then 0
    else if performancePercentage > 100 then 100
    else performancePercentage

/-- Go `calculatePerformancePercentage(smartOutput)` (performance.go 87-130). -/
def calculatePerformancePercentage (smartOutput : String) : Int :=
  let lines := strings.Split smartOutput.data '\n'
  perfFromVars (lines.foldl perfStep ⟨0, 0, 0, 0⟩)

/-! ## Vocabulary for stating the properties of the performance scorer -/

/-- The leftmost maximal run of decimal digits of a line; empty when the line has no digit. -/
def firstDigits (line : List Char) : List Char :=
  (line.dropWhile (fun c => !c.isDigit)).takeWhile Char.isDigit

/-- The first integer written on a line; 0 when the line has no digit. -/
def firstInteger (line : List Char) : Nat := strconv.decimalValue (firstDigits line)

/-- The first integer on the first line that contains `marker`; 0 when no line contains it. -/
def markerInteger (marker : List Char) (lines : List (List Char)) : Nat :=
  match lines.find? (fun line => strings.Contains line marker) with
  | some line => firstInteger line
  | none => 0

/-- A natural number as an `int`, counted as 0 when it is above the largest `int`. -/
def fitOrZero (n : Nat) : Int := if (n : Int) ≤ maxInt then (n : Int) else 0

/-- The result of `extractAttributeValue` on the first line that contains `marker`;
`d` when no line contains it. -/
def markerValue (marker : List Char) (lines : List (List Char)) (d : Int) : Int :=
  match lines.find? (fun line => strings.Contains line marker) with
  | some line => extractAttributeValue line
  | none => d

end HdAnalyze

/-! ## The progress bar (health.go 159-164, performance.go 174-179) -/

namespace strings

/-- The text `s` written `n` times. -/
def repeatText (s : List Char) : Nat → List Char
  | 0 => []
  | n + 1 => s ++ repeatText s n

/-- The length in bytes (UTF-8) of a text, the Go `len` of a string. -/
def byteLen (s : List Char) : Nat := s.foldl (fun n c => n + c.utf8Size) 0

/-- Go `strings.Repeat(s, count)`: a negative count is a run-time panic, and so is a
result longer than the largest `int`; both are modelled by `none`. -/
def Repeat (s : List Char) (count : Int) : Option (List Char) :=
  if count < 0 then none
  else if (byteLen s : Int) * count > 9223372036854775807 then none
  else some (repeatText s count.toNat)

end strings

namespace HdAnalyze

/-- The constant `barLength` of `drawProgressBar`. -/
def barLength : Int := 30

/-- The bar built by `drawProgressBar(percentage)` (lines 160-162 of health.go, the same
in performance.go); `none` is the panic of `strings.Repeat`. -/
def progressBar (percentage : Int) : Option (List Char) :=
  let filled := goQuo (goMul percentage barLength) 100
  match strings.Repeat "█".data filled with
  | none => none
  | some full =>
    match strings.Repeat "░".data (goSub barLength filled) with
    | none => none
    | some empty => some (full ++ empty)

/-- Go `drawProgressBar(percentage)`: the text written to the standard output. -/
def drawProgressBar (percentage : Int) : Option (List Char) :=
  match progressBar percentage with
  | none => none
  | some bar => some ("\n[".data ++ bar ++ "] ".data ++ (toString percentage).data ++ "%\n".data)

/-! ## A variant of the performance scorer, for comparison -/

/-- The part of `calculatePerformancePercentage` after the loop with the final clamp
(performance.go 123-127) removed. -/
def perfFromVarsNoClamp (v : PerfVars) : Int :=
  if v.count = 0 then 100
  else
    let throughput := normalizeValue v.throughput
    let seekTime := normalizeValue v.seekTime
    let latency := normalizeValue v.latency
    goQuo (goAdd (goAdd throughput (goSub 100 seekTime)) (goSub 100 latency)) 3

/-- The function `calculatePerformancePercentage` with lines 123-127 removed. -/
def calculatePerformancePercentageNoClamp (smartOutput : String) : Int :=
  let lines := strings.Split smartOutput.data '\n'
  perfFromVarsNoClamp (lines.foldl perfStep ⟨0, 0, 0, 0⟩)

end HdAnalyze

/-! ## Properties -/

namespace HdAnalyze

open regexp

/-! ### Machine arithmetic -/

theorem wrapInt_of_inRange {x : Int} (hlo : minInt ≤ x) (hhi : x ≤ maxInt) : wrapInt x = x := by
  unfold minInt at hlo
  unfold maxInt at hhi
  unfold wrapInt
  omega

theorem wrapInt_of_literal_bounds {x : Int} (hlo : -9223372036854775808 ≤ x)
    (hhi : x ≤ 9223372036854775807) : wrapInt x = x := by
  unfold wrapInt
  omega

theorem wrapInt_inRange (x : Int) : minInt ≤ wrapInt x ∧ wrapInt x ≤ maxInt := by
  unfold minInt maxInt wrapInt
  omega

theorem goDiv_isSome {a b : Int} (hb : b ≠ 0) : goDiv a b = some (goQuo a b) := by
  simp [goDiv, hb]

/-! ### Health: range and status -/

theorem healthFromValues_range (rawValue threshold : Int) :
    ∃ p, healthFromValues rawValue threshold = some p ∧ 0 ≤ p ∧ p ≤ 100 := by
  unfold healthFromValues
  by_cases ht : threshold = 0
  · exact ⟨100, by simp [ht], by omega, by omega⟩
  · rw [if_neg ht, goDiv_isSome ht]
    simp only
    split_ifs with h1 h2
    · exact ⟨0, rfl, by omega, by omega⟩
    · exact ⟨100, rfl, by omega, by omega⟩
    · exact ⟨_, rfl, by omega, by omega⟩

theorem calculateHealthPercentage_range (report : String) :
    ∃ p, calculateHealthPercentage report = some p ∧ 0 ≤ p ∧ p ≤ 100 := by
  unfold calculateHealthPercentage
  exact healthFromValues_range _ _

theorem determineHealth_of_passed {report : String} {p : Int}
    (hP : strings.Contains report.data "PASSED".data = true)
    (hp : calculateHealthPercentage report = some p) :
    determineHealth report = some ("healthy", p) := by
  unfold determineHealth
  rw [if_pos hP, hp]

/-- C1: for every report, `determineHealth` returns (it does not panic) and the
percentage it returns is an integer between 0 and 100. -/
theorem determineHealth_percentage_range (report : String) :
    ∃ status percentage, determineHealth report = some (status, percentage) ∧
      0 ≤ percentage ∧ percentage ≤ 100 := by
  by_cases hP : strings.Contains report.data "PASSED".data = true
  · obtain ⟨p, hp, h0, h100⟩ := calculateHealthPercentage_range report
    exact ⟨"healthy", p, determineHealth_of_passed hP hp, h0, h100⟩
  · by_cases hF : strings.Contains report.data "FAILED".data = true
    · exact ⟨"failing", 0, by simp [determineHealth, hP, hF], by omega, by omega⟩
    · exact ⟨"unknown", 50, by simp [determineHealth, hP, hF], by omega, by omega⟩

/-- C3, as stated, fails: a report that contains both markers is scored by the
PASSED branch, which is tested first. -/
theorem determineHealth_failed_with_passed :
    strings.Contains "PASSED\nWHEN_FAILED".data "FAILED".data = true ∧
      determineHealth "PASSED\nWHEN_FAILED" = some ("healthy", 100) ∧
      determineHealth "PASSED\nWHEN_FAILED" ≠ some ("failing", 0) := by
  decide

/-- C3, amended: every report that contains "FAILED" and does not contain "PASSED"
is scored (failing, 0), whatever else it contains. -/
theorem determineHealth_failed (report : String)
    (hF : strings.Contains report.data "FAILED".data = true)
    (hP : strings.Contains report.data "PASSED".data = false) :
    determineHealth report = some ("failing", 0) := by
  simp [determineHealth, hP, hF]

theorem determineHealth_failed_witness :
    strings.Contains "RAW_VALUE 50 THRESHOLD 25\nresult: FAILED!".data "FAILED".data = true ∧
      strings.Contains "RAW_VALUE 50 THRESHOLD 25\nresult: FAILED!".data "PASSED".data = false ∧
      determineHealth "RAW_VALUE 50 THRESHOLD 25\nresult: FAILED!" = some ("failing", 0) :=
  ⟨by decide, by decide, determineHealth_failed _ (by decide) (by decide)⟩

/-- C4: for every report the status returned by `determineHealth` is one of healthy,
failing, unknown; a failing status comes with percentage 0 and an unknown status with
percentage 50. -/
theorem determineHealth_status_coupling (report : String) :
    ∃ status percentage, determineHealth report = some (status, percentage) ∧
      (status = "failing" → percentage = 0) ∧
      (status = "unknown" → percentage = 50) ∧
      (status = "healthy" ∨ status = "failing" ∨ status = "unknown") := by
  by_cases hP : strings.Contains report.data "PASSED".data = true
  · obtain ⟨p, hp, _, _⟩ := calculateHealthPercentage_range report
    exact ⟨"healthy", p, determineHealth_of_passed hP hp, fun h => absurd h (by decide),
      fun h => absurd h (by decide), Or.inl rfl⟩
  · by_cases hF : strings.Contains report.data "FAILED".data = true
    · exact ⟨"failing", 0, by simp [determineHealth, hP, hF], fun _ => rfl,
        fun h => absurd h (by decide), Or.inr (Or.inl rfl)⟩
    · exact ⟨"unknown", 50, by simp [determineHealth, hP, hF],
        fun h => absurd h (by decide), fun _ => rfl, Or.inr (Or.inr rfl)⟩

/-- C8: every report that contains neither "PASSED" nor "FAILED" is scored (unknown, 50). -/
theorem determineHealth_unknown (report : String)
    (hP : strings.Contains report.data "PASSED".data = false)
    (hF : strings.Contains report.data "FAILED".data = false) :
    determineHealth report = some ("unknown", 50) := by
  simp [determineHealth, hP, hF]

theorem determineHealth_unknown_witness :
    strings.Contains "".data "PASSED".data = false ∧
      strings.Contains "".data "FAILED".data = false ∧
      determineHealth "" = some ("unknown", 50) :=
  ⟨by decide, by decide, determineHealth_unknown "" (by decide) (by decide)⟩

/-! ### Performance: range and default -/

theorem perfFromVars_range (v : PerfVars) : 0 ≤ perfFromVars v ∧ perfFromVars v ≤ 100 := by
  unfold perfFromVars
  simp only
  split_ifs <;> omega

/-- C2: for every report, `calculatePerformancePercentage` returns an integer between
0 and 100. -/
theorem calculatePerformancePercentage_range (report : String) :
    0 ≤ calculatePerformancePercentage report ∧ calculatePerformancePercentage report ≤ 100 := by
  unfold calculatePerformancePercentage
  exact perfFromVars_range _

theorem perfStep_of_no_marker {line : List Char} (v : PerfVars)
    (h1 : strings.Contains line "Throughput Performance".data = false)
    (h2 : strings.Contains line "Seek Time Performance".data = false)
    (h3 : strings.Contains line "Command Timeout".data = false) :
    perfStep v line = v := by
  simp [perfStep, h1, h2, h3]

theorem perfStep_count_of_nonpos {line : List Char} (v : PerfVars)
    (h : (strings.Contains line "Throughput Performance".data = true ∨
        strings.Contains line "Seek Time Performance".data = true ∨
        strings.Contains line "Command Timeout".data = true) → extractAttributeValue line ≤ 0) :
    (perfStep v line).count = v.count := by
  unfold perfStep
  split_ifs with h1 h2 h3
  · have := h (Or.inl h1)
    simp only
    rw [if_neg (by omega)]
  · have := h (Or.inr (Or.inl h2))
    simp only
    rw [if_neg (by omega)]
  · have := h (Or.inr (Or.inr h3))
    simp only
    rw [if_neg (by omega)]
  · rfl

theorem foldl_perfStep_count_of_nonpos (lines : List (List Char)) (v : PerfVars)
    (h : ∀ line ∈ lines, (strings.Contains line "Throughput Performance".data = true ∨
        strings.Contains line "Seek Time Performance".data = true ∨
        strings.Contains line "Command Timeout".data = true) → extractAttributeValue line ≤ 0) :
    (lines.foldl perfStep v).count = v.count := by
  induction lines generalizing v with
  | nil => rfl
  | cons line rest ih =>
    rw [List.foldl_cons, ih _ (fun l hl => h l (List.mem_cons_of_mem _ hl)),
      perfStep_count_of_nonpos v (h line (List.mem_cons_self _ _))]

/-- C9: when no line that contains one of the three markers yields a strictly positive
integer from `extractAttributeValue`, `calculatePerformancePercentage` returns 100. -/
theorem calculatePerformancePercentage_default (report : String)
    (h : ∀ line ∈ strings.Split report.data '\n',
      (strings.Contains line "Throughput Performance".data = true ∨
        strings.Contains line "Seek Time Performance".data = true ∨
        strings.Contains line "Command Timeout".data = true) → ¬ 0 < extractAttributeValue line) :
    calculatePerformancePercentage report = 100 := by
  unfold calculatePerformancePercentage
  simp only
  unfold perfFromVars
  rw [foldl_perfStep_count_of_nonpos _ _ (fun l hl hm => not_lt.mp (h l hl hm))]
  rfl

theorem calculatePerformancePercentage_default_witness :
    (∀ line ∈ strings.Split "Device Model: X\nThroughput Performance 0\nCommand Timeout -".data '\n',
      (strings.Contains line "Throughput Performance".data = true ∨
        strings.Contains line "Seek Time Performance".data = true ∨
        strings.Contains line "Command Timeout".data = true) → ¬ 0 < extractAttributeValue line) ∧
      calculatePerformancePercentage "Device Model: X\nThroughput Performance 0\nCommand Timeout -" = 100 ∧
      calculatePerformancePercentage "" = 100 :=
  ⟨by decide, calculatePerformancePercentage_default _ (by decide),
    calculatePerformancePercentage_default "" (by decide)⟩

end HdAnalyze

namespace regexp

theorem starRun_some {α : Type} (p : Char → Bool) (s : List Char) (k : List Char → Option α)
    (x : α) (h : starRun p s k = some x) :
    ∃ a rest, s = a ++ rest ∧ (∀ c ∈ a, p c = true) ∧ k rest = some x := by
  induction s with
  | nil => exact ⟨[], [], rfl, by simp, h⟩
  | cons c cs ih =>
    unfold starRun at h
    by_cases hp : p c = true
    · rw [if_pos hp] at h
      cases hrec : starRun p cs k with
      | none =>
        rw [hrec] at h
        exact ⟨[], c :: cs, rfl, by simp, h⟩
      | some r =>
        rw [hrec] at h
        have hrx : r = x := by simpa using h
        subst hrx
        obtain ⟨a, rest, hs, ha, hk⟩ := ih hrec
        refine ⟨c :: a, rest, by rw [hs]; rfl, ?_, hk⟩
        intro d hd
        rcases List.mem_cons.mp hd with rfl | hd
        · exact hp
        · exact ha d hd
    · rw [if_neg hp] at h
      exact ⟨[], c :: cs, rfl, by simp, h⟩

theorem starRun_of_total {α : Type} (p : Char → Bool) (s : List Char) (k : List Char → Option α)
    (hk : ∀ rest, (k rest).isSome = true) : starRun p s k = k (s.dropWhile p) := by
  induction s with
  | nil => rfl
  | cons c cs ih =>
    unfold starRun
    by_cases hp : p c = true
    · rw [if_pos hp, ih, List.dropWhile_cons_of_pos hp]
      cases hr : k (List.dropWhile p cs) with
      | none =>
        have hsome := hk (List.dropWhile p cs)
        rw [hr] at hsome
        simp at hsome
      | some r => rfl
    · rw [if_neg hp, List.dropWhile_cons_of_neg hp]

theorem run_seq {α : Type} (a b : Regexp) (s : List Char) (caps : List (List Char))
    (k : List Char → List (List Char) → Option α) :
    (Regexp.seq a b).run s caps k = a.run s caps (fun rest caps1 => b.run rest caps1 k) := by
  rw [Regexp.run]

theorem run_lit_some {α : Type} (l s : List Char) (caps : List (List Char))
    (k : List Char → List (List Char) → Option α) (x : α)
    (h : (Regexp.lit l).run s caps k = some x) :
    ∃ rest, s = l ++ rest ∧ k rest caps = some x := by
  unfold Regexp.run at h
  by_cases hl : l.isPrefixOf s = true
  · rw [if_pos hl] at h
    obtain ⟨t, ht⟩ := List.isPrefixOf_iff_prefix.mp hl
    refine ⟨t, ht.symm, ?_⟩
    rw [← ht, List.drop_left] at h
    exact h
  · rw [if_neg hl] at h
    exact absurd h (by simp)

theorem run_plus_some {α : Type} (p : Char → Bool) (s : List Char) (caps : List (List Char))
    (k : List Char → List (List Char) → Option α) (x : α)
    (h : (Regexp.plus p).run s caps k = some x) :
    ∃ a rest, s = a ++ rest ∧ a ≠ [] ∧ (∀ c ∈ a, p c = true) ∧ k rest caps = some x := by
  cases s with
  | nil => simp [Regexp.run] at h
  | cons c cs =>
    simp only [Regexp.run] at h
    by_cases hp : p c = true
    · rw [if_pos hp] at h
      obtain ⟨a, rest, hs, ha, hk⟩ := starRun_some p cs _ x h
      refine ⟨c :: a, rest, by rw [hs]; rfl, by simp, ?_, hk⟩
      intro d hd
      rcases List.mem_cons.mp hd with rfl | hd
      · exact hp
      · exact ha d hd
    · rw [if_neg hp] at h
      exact absurd h (by simp)

theorem run_star_some {α : Type} (p : Char → Bool) (s : List Char) (caps : List (List Char))
    (k : List Char → List (List Char) → Option α) (x : α)
    (h : (Regexp.star p).run s caps k = some x) :
    ∃ a rest, s = a ++ rest ∧ (∀ c ∈ a, p c = true) ∧ k rest caps = some x := by
  simp only [Regexp.run] at h
  exact starRun_some p s _ x h

theorem run_group_plus_some {α : Type} (p : Char → Bool) (s : List Char) (caps : List (List Char))
    (k : List Char → List (List Char) → Option α) (x : α)
    (h : (Regexp.group (Regexp.plus p)).run s caps k = some x) :
    ∃ a rest, s = a ++ rest ∧ a ≠ [] ∧ (∀ c ∈ a, p c = true) ∧ k rest (caps ++ [a]) = some x := by
  simp only [Regexp.run] at h
  cases s with
  | nil => simp at h
  | cons c cs =>
  simp only at h
  by_cases hp : p c = true
  · rw [if_pos hp] at h
    obtain ⟨a, rest, hs, ha, hk⟩ := starRun_some p cs _ x h
    refine ⟨c :: a, rest, by rw [hs]; rfl, by simp, ?_, ?_⟩
    · intro d hd
      rcases List.mem_cons.mp hd with rfl | hd
      · exact hp
      · exact ha d hd
    · have hlen : (c :: cs).length - rest.length = (c :: a).length := by
        rw [hs]; simp; omega
      have htake : List.take ((c :: cs).length - rest.length) (c :: cs) = c :: a := by
        rw [hlen, hs]
        exact List.take_left (c :: a) rest
      rw [htake] at hk
      exact hk
  · rw [if_neg hp] at h
    exact absurd h (by simp)

end regexp

namespace strings

theorem Contains_of_prefix (pat b : List Char) : Contains (pat ++ b) pat = true := by
  cases hs : pat ++ b with
  | nil =>
    have hp : pat = [] := (List.append_eq_nil.mp hs).1
    simp [Contains, hp]
  | cons c cs =>
    unfold Contains
    rw [← hs]
    have hpre : pat.isPrefixOf (pat ++ b) = true :=
      List.isPrefixOf_iff_prefix.mpr (List.prefix_append pat b)
    rw [hpre]
    rfl

theorem Contains_of_tail (c : Char) (cs pat : List Char) (h : Contains cs pat = true) :
    Contains (c :: cs) pat = true := by
  unfold Contains
  rw [h]
  simp

theorem Contains_of_infix (a pat b : List Char) : Contains (a ++ (pat ++ b)) pat = true := by
  induction a with
  | nil => exact Contains_of_prefix pat b
  | cons c cs ih => exact Contains_of_tail c _ pat ih

end strings

namespace HdAnalyze

open regexp

/-- What a successful match of the health pattern at the start of a text looks like. -/
theorem matchAt_healthPattern_some (s : List Char) (m : List (List Char))
    (h : healthPattern.matchAt s = some m) :
    ∃ ws1 d1 mid ws2 d2 rest m0,
      s = "RAW_VALUE".data ++ (ws1 ++ (d1 ++ (mid ++ ("THRESHOLD".data ++ (ws2 ++ (d2 ++ rest)))))) ∧
      m = [m0, d1, d2] ∧
      (d1 ≠ [] ∧ ∀ c ∈ d1, isDigit c = true) ∧ (d2 ≠ [] ∧ ∀ c ∈ d2, isDigit c = true) := by
  unfold Regexp.matchAt healthPattern at h
  rw [run_seq] at h
  obtain ⟨r1, hs1, h⟩ := run_lit_some _ _ _ _ _ h
  rw [run_seq] at h
  obtain ⟨ws1, r2, hs2, -, -, h⟩ := run_plus_some _ _ _ _ _ h
  rw [run_seq] at h
  obtain ⟨d1, r3, hs3, hd1, hd1', h⟩ := run_group_plus_some _ _ _ _ _ h
  rw [run_seq] at h
  obtain ⟨mid, r4, hs4, -, h⟩ := run_star_some _ _ _ _ _ h
  rw [run_seq] at h
  obtain ⟨r5, hs5, h⟩ := run_lit_some _ _ _ _ _ h
  rw [run_seq] at h
  obtain ⟨ws2, r6, hs6, -, -, h⟩ := run_plus_some _ _ _ _ _ h
  obtain ⟨d2, rest, hs7, hd2, hd2', h⟩ := run_group_plus_some _ _ _ _ _ h
  refine ⟨ws1, d1, mid, ws2, d2, rest, _, ?_, (Option.some.inj h).symm, ⟨hd1, hd1'⟩, ⟨hd2, hd2'⟩⟩
  rw [hs1, hs2, hs3, hs4, hs5, hs6, hs7]

/-- What a match found by `FindStringSubmatch` with the health pattern looks like. -/
theorem FindStringSubmatch_healthPattern (s : List Char) :
    healthPattern.FindStringSubmatch s = [] ∨
    ∃ pre ws1 d1 mid ws2 d2 rest m0,
      s = pre ++ ("RAW_VALUE".data ++
        (ws1 ++ (d1 ++ (mid ++ ("THRESHOLD".data ++ (ws2 ++ (d2 ++ rest))))))) ∧
      healthPattern.FindStringSubmatch s = [m0, d1, d2] ∧
      (d1 ≠ [] ∧ ∀ c ∈ d1, isDigit c = true) ∧ (d2 ≠ [] ∧ ∀ c ∈ d2, isDigit c = true) := by
  induction s with
  | nil =>
    left
    rfl
  | cons c cs ih =>
    unfold Regexp.FindStringSubmatch
    cases hm : healthPattern.matchAt (c :: cs) with
    | some m =>
      right
      obtain ⟨ws1, d1, mid, ws2, d2, rest, m0, hs, hm0, hd1, hd2⟩ :=
        matchAt_healthPattern_some _ _ hm
      exact ⟨[], ws1, d1, mid, ws2, d2, rest, m0, hs, hm0, hd1, hd2⟩
    | none =>
      rcases ih with h0 | ⟨pre, ws1, d1, mid, ws2, d2, rest, m0, hs, hm0, hd1, hd2⟩
      · left
        exact h0
      · right
        exact ⟨c :: pre, ws1, d1, mid, ws2, d2, rest, m0, by rw [hs]; rfl, hm0, hd1, hd2⟩

/-- A line on which the health pattern yields three submatches contains both markers,
and the two groups are non-empty strings of digits. -/
theorem FindStringSubmatch_healthPattern_three {line m0 m1 m2 : List Char}
    (h : healthPattern.FindStringSubmatch line = [m0, m1, m2]) :
    strings.Contains line "RAW_VALUE".data = true ∧
    strings.Contains line "THRESHOLD".data = true ∧
    (m1 ≠ [] ∧ ∀ c ∈ m1, isDigit c = true) ∧ (m2 ≠ [] ∧ ∀ c ∈ m2, isDigit c = true) := by
  rcases FindStringSubmatch_healthPattern line with h0 |
    ⟨pre, ws1, d1, mid, ws2, d2, rest, n0, hs, hm, hd1, hd2⟩
  · rw [h0] at h
    exact absurd h (by simp)
  · rw [hm] at h
    injection h with _ h
    injection h with h1 h
    injection h with h2 _
    subst h1 h2
    refine ⟨?_, ?_, hd1, hd2⟩
    · rw [hs]
      exact strings.Contains_of_infix _ _ _
    · have hs' : line = (pre ++ ("RAW_VALUE".data ++ (ws1 ++ (d1 ++ mid)))) ++
          ("THRESHOLD".data ++ (ws2 ++ (d2 ++ rest))) := by
        rw [hs]
        simp only [List.append_assoc]
      rw [hs']
      exact strings.Contains_of_infix _ _ _

/-- The health pattern yields either no submatch or exactly three. -/
theorem FindStringSubmatch_healthPattern_length (line : List Char) :
    (healthPattern.FindStringSubmatch line).length = 0 ∨
    (healthPattern.FindStringSubmatch line).length = 3 := by
  rcases FindStringSubmatch_healthPattern line with h0 |
    ⟨pre, ws1, d1, mid, ws2, d2, rest, n0, hs, hm, hd1, hd2⟩
  · left; rw [h0]; rfl
  · right; rw [hm]; rfl

end HdAnalyze

namespace strconv

theorem Atoi_of_digits {d : List Char} (hne : d ≠ [])
    (hd : ∀ c ∈ d, regexp.isDigit c = true) :
    Atoi d = if decimalValue d ≥ 9223372036854775808
      then (9223372036854775807, some NumError.ErrRange) else ((decimalValue d : Int), none) := by
  cases d with
  | nil => exact absurd rfl hne
  | cons c cs =>
    have hc : c.isDigit = true := hd c (List.mem_cons_self _ _)
    have hminus : c ≠ '-' := by
      intro h
      rw [h] at hc
      exact absurd hc (by decide)
    have hplus : c ≠ '+' := by
      intro h
      rw [h] at hc
      exact absurd hc (by decide)
    have hall : (c :: cs).all Char.isDigit = true := List.all_eq_true.mpr hd
    simp only [Atoi, hminus, hplus, or_self, if_false, decide_False, hall, List.isEmpty_cons,
      Bool.not_true, Bool.or_self]
    rfl

theorem Atoi_fst_of_digits {d : List Char} (hne : d ≠ [])
    (hd : ∀ c ∈ d, regexp.isDigit c = true) :
    0 ≤ (Atoi d).1 ∧ (Atoi d).1 ≤ 9223372036854775807 ∧
      ((decimalValue d : Int) ≤ 9223372036854775807 → (Atoi d).1 = decimalValue d) := by
  rw [Atoi_of_digits hne hd]
  split_ifs with h
  · refine ⟨by simp, by simp, fun h2 => ?_⟩
    omega
  · refine ⟨by simp, ?_, fun _ => rfl⟩
    simp only
    omega

end strconv

namespace HdAnalyze

open regexp

/-! ### Health: the scan of the lines -/

theorem scanRawThreshold_cons_of_none {line : List Char} (lines : List (List Char))
    (h : healthPattern.FindStringSubmatch line = []) :
    scanRawThreshold (line :: lines) = scanRawThreshold lines := by
  rw [scanRawThreshold, h]
  simp

theorem scanRawThreshold_cons_of_three {line m0 m1 m2 : List Char} (lines : List (List Char))
    (h : healthPattern.FindStringSubmatch line = [m0, m1, m2]) :
    scanRawThreshold (line :: lines) = ((strconv.Atoi m1).1, (strconv.Atoi m2).1) := by
  obtain ⟨hR, hT, -, -⟩ := FindStringSubmatch_healthPattern_three h
  rw [scanRawThreshold, h, hR, hT]
  rfl

theorem scanRawThreshold_skip (pre lines : List (List Char))
    (hpre : ∀ x ∈ pre, healthPattern.FindStringSubmatch x = []) :
    scanRawThreshold (pre ++ lines) = scanRawThreshold lines := by
  induction pre with
  | nil => rfl
  | cons x xs ih =>
    rw [List.cons_append, scanRawThreshold_cons_of_none _ (hpre x (List.mem_cons_self _ _))]
    exact ih (fun y hy => hpre y (List.mem_cons_of_mem _ hy))

theorem scanRawThreshold_of_none (lines : List (List Char))
    (h : ∀ x ∈ lines, healthPattern.FindStringSubmatch x = []) :
    scanRawThreshold lines = (0, 0) := by
  have := scanRawThreshold_skip lines [] h
  rw [List.append_nil] at this
  rw [this]
  rfl

theorem scanRawThreshold_first_match (pre post : List (List Char)) {line m0 m1 m2 : List Char}
    (hpre : ∀ x ∈ pre, healthPattern.FindStringSubmatch x = [])
    (h : healthPattern.FindStringSubmatch line = [m0, m1, m2]) :
    scanRawThreshold (pre ++ line :: post) = ((strconv.Atoi m1).1, (strconv.Atoi m2).1) := by
  rw [scanRawThreshold_skip pre _ hpre, scanRawThreshold_cons_of_three post h]

/-- The values left by the loop are non-negative Go ints. -/
theorem scanRawThreshold_bounds (lines : List (List Char)) :
    (0 ≤ (scanRawThreshold lines).1 ∧ (scanRawThreshold lines).1 ≤ maxInt) ∧
    (0 ≤ (scanRawThreshold lines).2 ∧ (scanRawThreshold lines).2 ≤ maxInt) := by
  induction lines with
  | nil => exact ⟨⟨by decide, by decide⟩, ⟨by decide, by decide⟩⟩
  | cons line rest ih =>
    rcases FindStringSubmatch_healthPattern line with h0 |
      ⟨pre, ws1, d1, mid, ws2, d2, tail, m0, -, hm, hd1, hd2⟩
    · rw [scanRawThreshold_cons_of_none rest h0]
      exact ih
    · rw [scanRawThreshold_cons_of_three rest hm]
      have h1 := strconv.Atoi_fst_of_digits hd1.1 hd1.2
      have h2 := strconv.Atoi_fst_of_digits hd2.1 hd2.2
      exact ⟨⟨h1.1, h1.2.1⟩, ⟨h2.1, h2.2.1⟩⟩

/-! ### Health: the arithmetic -/

theorem tdiv_of_pos_divisor_bounds {x t : Int} (ht : 0 < t) :
    (0 ≤ x → 0 ≤ Int.tdiv x t ∧ Int.tdiv x t ≤ x) ∧
    (x ≤ 0 → x ≤ Int.tdiv x t ∧ Int.tdiv x t ≤ 0) := by
  constructor
  · intro hx
    rw [Int.tdiv_eq_ediv hx (le_of_lt ht)]
    exact ⟨Int.ediv_nonneg hx (le_of_lt ht), Int.ediv_le_self t hx⟩
  · intro hx
    have hneg : Int.tdiv x t = -(Int.tdiv (-x) t) := by
      rw [Int.neg_tdiv, neg_neg]
    have hx' : 0 ≤ -x := by omega
    rw [hneg, Int.tdiv_eq_ediv hx' (le_of_lt ht)]
    have h1 := Int.ediv_nonneg hx' (le_of_lt ht)
    have h2 := Int.ediv_le_self t hx'
    omega

theorem tdiv_ge_of_mul_le {x t n : Int} (ht : 0 < t) (hn : 0 ≤ n) (h : n * t ≤ x) :
    n ≤ Int.tdiv x t := by
  have hx : 0 ≤ x := le_trans (mul_nonneg hn (le_of_lt ht)) h
  rw [Int.tdiv_eq_ediv hx (le_of_lt ht)]
  exact Int.le_ediv_of_mul_le ht h

theorem tdiv_ge_neg_of_le {x t n : Int} (ht : 0 < t) (hx : x ≤ 0)
    (h : -(n * t) ≤ x) : -n ≤ Int.tdiv x t := by
  have hneg : Int.tdiv x t = -(Int.tdiv (-x) t) := by
    rw [Int.neg_tdiv, neg_neg]
  have hx' : 0 ≤ -x := by omega
  rw [hneg, Int.tdiv_eq_ediv hx' (le_of_lt ht)]
  have : -x / t ≤ n := Int.ediv_le_of_le_mul ht (by omega)
  omega

/-- The percentage computed from values for which no intermediate result leaves the
`int` range. -/
theorem healthFromValues_exact {r t : Int} (hr0 : 0 ≤ r) (ht0 : 0 < t)
    (hlo : minInt ≤ (r - t) * 100) (hhi : (r - t) * 100 ≤ maxInt) :
    healthFromValues r t = some (max 0 (min 100 (100 - Int.tdiv ((r - t) * 100) t))) := by
  have hsub : goSub r t = r - t := by
    unfold goSub
    apply wrapInt_of_inRange <;> unfold minInt maxInt at * <;> omega
  have hmul : goMul (r - t) 100 = (r - t) * 100 := wrapInt_of_inRange hlo hhi
  have hq : -100 ≤ Int.tdiv ((r - t) * 100) t ∧ Int.tdiv ((r - t) * 100) t ≤ maxInt := by
    by_cases hx : 0 ≤ (r - t) * 100
    · have := (tdiv_of_pos_divisor_bounds (x := (r - t) * 100) ht0).1 hx
      omega
    · have h1 := (tdiv_of_pos_divisor_bounds (x := (r - t) * 100) ht0).2 (by omega)
      have h2 := tdiv_ge_neg_of_le (x := (r - t) * 100) (n := 100) ht0 (by omega)
        (by ring_nf; omega)
      unfold maxInt
      omega
  have hquo : goQuo ((r - t) * 100) t = Int.tdiv ((r - t) * 100) t := by
    unfold goQuo
    apply wrapInt_of_inRange <;> unfold minInt maxInt at * <;> omega
  have hsub2 : goSub 100 (Int.tdiv ((r - t) * 100) t) = 100 - Int.tdiv ((r - t) * 100) t := by
    unfold goSub
    apply wrapInt_of_inRange <;> unfold minInt maxInt at * <;> omega
  unfold healthFromValues
  rw [if_neg (by omega), hsub, hmul, goDiv_isSome (by omega), hquo]
  simp only [hsub2]
  split_ifs with h1 h2
  · congr 1; omega
  · congr 1; omega
  · congr 1; omega

end HdAnalyze

namespace HdAnalyze

open regexp

theorem determineHealth_of_values {report : String} {r t p : Int}
    (hP : strings.Contains report.data "PASSED".data = true)
    (hv : scanRawThreshold (strings.Split report.data '\n') = (r, t))
    (hp : healthFromValues r t = some p) :
    determineHealth report = some ("healthy", p) := by
  apply determineHealth_of_passed hP
  unfold calculateHealthPercentage
  simp only [hv]
  exact hp

/-- C5, as stated, fails: with r = 184467440737095517 and t = 1 the product
(r - t) * 100 leaves the 64-bit range and wraps to -16, so the percentage is 100,
where the formula of the claim gives 0. -/
theorem determineHealth_first_match_overflow :
    strings.Contains "PASSED\nRAW_VALUE 184467440737095517 THRESHOLD 1".data "PASSED".data = true ∧
    strings.Split "PASSED\nRAW_VALUE 184467440737095517 THRESHOLD 1".data '\n' =
      ["PASSED".data] ++ "RAW_VALUE 184467440737095517 THRESHOLD 1".data :: [] ∧
    (∀ x ∈ ["PASSED".data], healthPattern.FindStringSubmatch x = []) ∧
    healthPattern.FindStringSubmatch "RAW_VALUE 184467440737095517 THRESHOLD 1".data =
      ["RAW_VALUE 184467440737095517 THRESHOLD 1".data, "184467440737095517".data, "1".data] ∧
    strconv.decimalValue "184467440737095517".data = 184467440737095517 ∧
    strconv.decimalValue "1".data = 1 ∧
    max 0 (min 100 (100 - Int.tdiv (((184467440737095517 : Int) - 1) * 100) 1)) = 0 ∧
    determineHealth "PASSED\nRAW_VALUE 184467440737095517 THRESHOLD 1" = some ("healthy", 100) := by
  decide

/-- C5, amended: in a PASSED report, let the first line on which the pattern
`RAW_VALUE\s+(\d+).*THRESHOLD\s+(\d+)` matches carry the integers r and t, with t > 0.
If r, t and (r - t) * 100 are within the range of a 64-bit `int`, then `determineHealth`
returns (healthy, clamp(100 - (r - t) * 100 / t, 0, 100)) with truncating division,
whatever the lines after that one contain. -/
theorem determineHealth_first_match (report : String) (pre post : List (List Char))
    (line m0 m1 m2 : List Char) (r t : Int)
    (hP : strings.Contains report.data "PASSED".data = true)
    (hsplit : strings.Split report.data '\n' = pre ++ line :: post)
    (hpre : ∀ x ∈ pre, healthPattern.FindStringSubmatch x = [])
    (hline : healthPattern.FindStringSubmatch line = [m0, m1, m2])
    (hr : r = strconv.decimalValue m1) (ht : t = strconv.decimalValue m2) (htpos : 0 < t)
    (hrmax : r ≤ maxInt) (htmax : t ≤ maxInt)
    (hlo : minInt ≤ (r - t) * 100) (hhi : (r - t) * 100 ≤ maxInt) :
    determineHealth report =
      some ("healthy", max 0 (min 100 (100 - Int.tdiv ((r - t) * 100) t))) := by
  obtain ⟨-, -, hd1, hd2⟩ := FindStringSubmatch_healthPattern_three hline
  have h1 := (strconv.Atoi_fst_of_digits hd1.1 hd1.2).2.2 (by rw [← hr]; exact hrmax)
  have h2 := (strconv.Atoi_fst_of_digits hd2.1 hd2.2).2.2 (by rw [← ht]; exact htmax)
  have hv : scanRawThreshold (strings.Split report.data '\n') = (r, t) := by
    rw [hsplit, scanRawThreshold_first_match pre post hpre hline, h1, h2, hr, ht]
  have hr0 : 0 ≤ r := by rw [hr]; exact Int.ofNat_nonneg _
  exact determineHealth_of_values hP hv (healthFromValues_exact hr0 htpos hlo hhi)

theorem determineHealth_first_match_witness :
    determineHealth "PASSED\nID RAW_VALUE 50 x THRESHOLD 25\nRAW_VALUE 1 THRESHOLD 1" =
      some ("healthy", 0) :=
  (determineHealth_first_match "PASSED\nID RAW_VALUE 50 x THRESHOLD 25\nRAW_VALUE 1 THRESHOLD 1"
    ["PASSED".data] ["RAW_VALUE 1 THRESHOLD 1".data] "ID RAW_VALUE 50 x THRESHOLD 25".data
    "RAW_VALUE 50 x THRESHOLD 25".data "50".data "25".data 50 25
    (by decide) (by decide) (by decide) (by decide) (by decide) (by decide) (by decide)
    (by decide) (by decide) (by decide) (by decide)).trans (by decide)

/-- C6, as stated, fails: (r - t) * 100 wraps around for large values. With r far above
t = 1 the percentage is 100, not 0; with r = 0 below a large t it is 1, not 100. -/
theorem determineHealth_saturation_overflow :
    (strings.Contains "PASSED\nRAW_VALUE 184467440737095517 THRESHOLD 1".data "PASSED".data = true ∧
      scanRawThreshold (strings.Split "PASSED\nRAW_VALUE 184467440737095517 THRESHOLD 1".data '\n') =
        (184467440737095517, 1) ∧
      (2 : Int) * 1 ≤ 184467440737095517 ∧
      determineHealth "PASSED\nRAW_VALUE 184467440737095517 THRESHOLD 1" = some ("healthy", 100)) ∧
    (strings.Contains "PASSED\nRAW_VALUE 0 THRESHOLD 92233720368547759".data "PASSED".data = true ∧
      scanRawThreshold (strings.Split "PASSED\nRAW_VALUE 0 THRESHOLD 92233720368547759".data '\n') =
        (0, 92233720368547759) ∧
      (0 : Int) < 92233720368547759 ∧
      determineHealth "PASSED\nRAW_VALUE 0 THRESHOLD 92233720368547759" = some ("healthy", 1)) := by
  decide

/-- C6, amended: in a PASSED report whose extracted values are rawValue r and
threshold t > 0, and for which (r - t) * 100 is within the range of a 64-bit `int`:
if r ≥ 2 * t the percentage is exactly 0, and if r < t it is exactly 100. -/
theorem determineHealth_saturation (report : String) (r t : Int)
    (hP : strings.Contains report.data "PASSED".data = true)
    (hv : scanRawThreshold (strings.Split report.data '\n') = (r, t))
    (htpos : 0 < t) :
    (2 * t ≤ r → (r - t) * 100 ≤ maxInt → determineHealth report = some ("healthy", 0)) ∧
    (r < t → minInt ≤ (r - t) * 100 → determineHealth report = some ("healthy", 100)) := by
  have hb := scanRawThreshold_bounds (strings.Split report.data '\n')
  rw [hv] at hb
  have hr0 : 0 ≤ r := hb.1.1
  constructor
  · intro h2 hhi
    have hlo : minInt ≤ (r - t) * 100 := by unfold minInt; omega
    have hq : 100 ≤ Int.tdiv ((r - t) * 100) t :=
      tdiv_ge_of_mul_le htpos (by omega) (by omega)
    rw [determineHealth_of_values hP hv (healthFromValues_exact hr0 htpos hlo hhi)]
    congr 2
    omega
  · intro hlt hlo
    have hhi : (r - t) * 100 ≤ maxInt := by unfold maxInt; omega
    have hq := (tdiv_of_pos_divisor_bounds (x := (r - t) * 100) htpos).2 (by omega)
    rw [determineHealth_of_values hP hv (healthFromValues_exact hr0 htpos hlo hhi)]
    congr 2
    omega

theorem determineHealth_saturation_witness :
    determineHealth "PASSED\nRAW_VALUE 700 THRESHOLD 25" = some ("healthy", 0) ∧
    determineHealth "PASSED\nRAW_VALUE 3 THRESHOLD 25" = some ("healthy", 100) :=
  ⟨(determineHealth_saturation "PASSED\nRAW_VALUE 700 THRESHOLD 25" 700 25
      (by decide) (by decide) (by decide)).1 (by decide) (by decide),
   (determineHealth_saturation "PASSED\nRAW_VALUE 3 THRESHOLD 25" 3 25
      (by decide) (by decide) (by decide)).2 (by decide) (by decide)⟩

/-- C7: `calculateHealthPercentage` never divides by zero (it returns for every report),
and a PASSED report in which no line matches the pattern, or whose first matching line
carries the threshold 0, is scored (healthy, 100). -/
theorem calculateHealthPercentage_zero_guard :
    (∀ report : String, ∃ p, calculateHealthPercentage report = some p) ∧
    (∀ report : String, strings.Contains report.data "PASSED".data = true →
      ((∀ line ∈ strings.Split report.data '\n', healthPattern.FindStringSubmatch line = []) ∨
        (∃ pre line post m0 m1 m2, strings.Split report.data '\n' = pre ++ line :: post ∧
          (∀ x ∈ pre, healthPattern.FindStringSubmatch x = []) ∧
          healthPattern.FindStringSubmatch line = [m0, m1, m2] ∧
          strconv.decimalValue m2 = 0)) →
      determineHealth report = some ("healthy", 100)) := by
  constructor
  · intro report
    obtain ⟨p, hp, -, -⟩ := calculateHealthPercentage_range report
    exact ⟨p, hp⟩
  · intro report hP h
    rcases h with hnone | ⟨pre, line, post, m0, m1, m2, hsplit, hpre, hline, hzero⟩
    · apply determineHealth_of_values hP (scanRawThreshold_of_none _ hnone)
      rfl
    · obtain ⟨-, -, -, hd2⟩ := FindStringSubmatch_healthPattern_three hline
      have h2 := (strconv.Atoi_fst_of_digits hd2.1 hd2.2).2.2 (by rw [hzero]; decide)
      rw [hzero] at h2
      have hv : scanRawThreshold (strings.Split report.data '\n') =
          ((strconv.Atoi m1).1, 0) := by
        rw [hsplit, scanRawThreshold_first_match pre post hpre hline, h2]
        rfl
      apply determineHealth_of_values hP hv
      unfold healthFromValues
      rw [if_pos rfl]

theorem calculateHealthPercentage_zero_guard_witness :
    determineHealth "result: PASSED\nRAW_VALUE and THRESHOLD" = some ("healthy", 100) ∧
    determineHealth "PASSED\nRAW_VALUE 7 THRESHOLD 000" = some ("healthy", 100) :=
  ⟨calculateHealthPercentage_zero_guard.2 "result: PASSED\nRAW_VALUE and THRESHOLD" (by decide)
      (Or.inl (by decide)),
   calculateHealthPercentage_zero_guard.2 "PASSED\nRAW_VALUE 7 THRESHOLD 000" (by decide)
      (Or.inr ⟨["PASSED".data], "RAW_VALUE 7 THRESHOLD 000".data, [],
        "RAW_VALUE 7 THRESHOLD 000".data, "7".data, "000".data,
        by decide, by decide, by decide, by decide⟩)⟩

end HdAnalyze

namespace HdAnalyze

open regexp

/-! ### Performance: extraction of the attribute value -/

theorem take_length_sub_dropWhile (p : Char → Bool) (s : List Char) :
    s.take (s.length - (s.dropWhile p).length) = s.takeWhile p := by
  have hs : s.takeWhile p ++ s.dropWhile p = s := List.takeWhile_append_dropWhile p s
  have hlen : s.length - (s.dropWhile p).length = (s.takeWhile p).length := by
    have := congrArg List.length hs
    rw [List.length_append] at this
    omega
  have htake := List.take_left (s.takeWhile p) (s.dropWhile p)
  rw [hs] at htake
  rw [hlen]
  exact htake

theorem matchAt_digitsPattern (s : List Char) :
    digitsPattern.matchAt s =
      if s.takeWhile isDigit = [] then none
      else some [s.takeWhile isDigit, s.takeWhile isDigit] := by
  cases s with
  | nil => rfl
  | cons c cs =>
    unfold Regexp.matchAt digitsPattern
    simp only [Regexp.run]
    by_cases hc : isDigit c = true
    · rw [if_pos hc, starRun_of_total _ _ _ (by intro r; rfl), List.takeWhile_cons_of_pos hc,
        if_neg (by simp)]
      have h1 := take_length_sub_dropWhile isDigit (c :: cs)
      rw [List.dropWhile_cons_of_pos hc, List.takeWhile_cons_of_pos hc] at h1
      simp only [List.nil_append, List.cons_append]
      rw [h1]
    · rw [if_neg hc, List.takeWhile_cons_of_neg hc, if_pos rfl]

theorem FindStringSubmatch_digitsPattern (line : List Char) :
    digitsPattern.FindStringSubmatch line =
      if firstDigits line = [] then [] else [firstDigits line, firstDigits line] := by
  induction line with
  | nil => rfl
  | cons c cs ih =>
    unfold Regexp.FindStringSubmatch
    rw [matchAt_digitsPattern, show (isDigit : Char → Bool) = Char.isDigit from rfl]
    by_cases hc : c.isDigit = true
    · have hfd : firstDigits (c :: cs) = (c :: cs).takeWhile Char.isDigit := by
        unfold firstDigits
        rw [List.dropWhile_cons_of_neg (by simp [hc])]
      rw [hfd]
      have hne : (c :: cs).takeWhile Char.isDigit ≠ [] := by
        rw [List.takeWhile_cons_of_pos hc]
        simp
      rw [if_neg hne, if_neg hne]
    · have hfd : firstDigits (c :: cs) = firstDigits cs := by
        unfold firstDigits
        rw [List.dropWhile_cons_of_pos (by simp [hc])]
      rw [hfd, List.takeWhile_cons_of_neg hc, if_pos rfl]
      exact ih

theorem firstDigits_digits (line : List Char) :
    ∀ c ∈ firstDigits line, isDigit c = true := by
  intro c hc
  exact List.mem_takeWhile_imp hc

/-- The result of `extractAttributeValue` is the first integer of the line, or 0 when
that integer is above the largest `int` (the conversion error is turned into 0). -/
theorem extractAttributeValue_eq (line : List Char) :
    extractAttributeValue line = fitOrZero (firstInteger line) := by
  unfold extractAttributeValue
  rw [FindStringSubmatch_digitsPattern]
  by_cases hd : firstDigits line = []
  · rw [if_pos hd]
    unfold fitOrZero firstInteger
    rw [hd]
    rfl
  · rw [if_neg hd]
    simp only
    rw [strconv.Atoi_of_digits hd (firstDigits_digits line)]
    unfold fitOrZero firstInteger maxInt
    split_ifs with h1 h2 h2
    · omega
    · rfl
    · rfl
    · omega

theorem fitOrZero_bounds (n : Nat) : 0 ≤ fitOrZero n ∧ fitOrZero n ≤ maxInt := by
  unfold fitOrZero maxInt
  split_ifs <;> omega

theorem markerValue_eq (marker : List Char) (lines : List (List Char)) :
    markerValue marker lines 0 = fitOrZero (markerInteger marker lines) := by
  unfold markerValue markerInteger
  cases lines.find? (fun line => strings.Contains line marker) with
  | none => rfl
  | some line => exact extractAttributeValue_eq line

end HdAnalyze

namespace HdAnalyze

/-! ### Performance: the loop when every marker is on at most one line -/

theorem markerValue_cons_of_pos {marker line : List Char} (rest : List (List Char)) (d : Int)
    (h : strings.Contains line marker = true) :
    markerValue marker (line :: rest) d = extractAttributeValue line := by
  simp only [markerValue, List.find?_cons, h]

theorem markerValue_cons_of_neg {marker line : List Char} (rest : List (List Char)) (d : Int)
    (h : strings.Contains line marker = false) :
    markerValue marker (line :: rest) d = markerValue marker rest d := by
  simp only [markerValue, List.find?_cons, h]

theorem markerValue_of_absent {marker : List Char} {lines : List (List Char)} (d : Int)
    (h : lines.filter (fun line => strings.Contains line marker) = []) :
    markerValue marker lines d = d := by
  unfold markerValue
  have hnone : lines.find? (fun line => strings.Contains line marker) = none := by
    rw [List.find?_eq_none]
    intro x hx hp
    have : x ∈ lines.filter (fun line => strings.Contains line marker) :=
      List.mem_filter.mpr ⟨hx, hp⟩
    rw [h] at this
    exact absurd this (List.not_mem_nil _)
  rw [hnone]

theorem filter_tail_of_unique {marker line : List Char} {rest : List (List Char)}
    (h : ((line :: rest).filter (fun x => strings.Contains x marker)).length ≤ 1) :
    (rest.filter (fun x => strings.Contains x marker)).length ≤ 1 ∧
    (strings.Contains line marker = true →
      rest.filter (fun x => strings.Contains x marker) = []) := by
  by_cases hm : strings.Contains line marker = true
  · simp only [List.filter_cons, hm, if_true, List.length_cons] at h
    have h0 : (rest.filter (fun x => strings.Contains x marker)).length = 0 := by omega
    exact ⟨by omega, fun _ => List.length_eq_zero.mp h0⟩
  · simp only [List.filter_cons, hm, if_false] at h
    exact ⟨h, fun hc => absurd hc hm⟩

theorem perfStep_throughput {line : List Char} (v : PerfVars)
    (h1 : strings.Contains line "Throughput Performance".data = true) :
    perfStep v line =
      { throughput := extractAttributeValue line, seekTime := v.seekTime, latency := v.latency,
        count := if extractAttributeValue line > 0 then v.count + 1 else v.count } := by
  simp [perfStep, h1]

theorem perfStep_seekTime {line : List Char} (v : PerfVars)
    (h1 : strings.Contains line "Throughput Performance".data = false)
    (h2 : strings.Contains line "Seek Time Performance".data = true) :
    perfStep v line =
      { throughput := v.throughput, seekTime := extractAttributeValue line, latency := v.latency,
        count := if extractAttributeValue line > 0 then v.count + 1 else v.count } := by
  simp [perfStep, h1, h2]

theorem perfStep_latency {line : List Char} (v : PerfVars)
    (h1 : strings.Contains line "Throughput Performance".data = false)
    (h2 : strings.Contains line "Seek Time Performance".data = false)
    (h3 : strings.Contains line "Command Timeout".data = true) :
    perfStep v line =
      { throughput := v.throughput, seekTime := v.seekTime, latency := extractAttributeValue line,
        count := if extractAttributeValue line > 0 then v.count + 1 else v.count } := by
  simp [perfStep, h1, h2, h3]

theorem count_step (e : Int) (n a b : Nat) :
    ((if e > 0 then n + 1 else n) + (if (0 : Int) < 0 then 1 else 0) + a + b =
      n + (if 0 < e then 1 else 0) + a + b) ∧
    ((if e > 0 then n + 1 else n) + a + (if (0 : Int) < 0 then 1 else 0) + b =
      n + a + (if 0 < e then 1 else 0) + b) ∧
    ((if e > 0 then n + 1 else n) + a + b + (if (0 : Int) < 0 then 1 else 0) =
      n + a + b + (if 0 < e then 1 else 0)) := by
  refine ⟨?_, ?_, ?_⟩ <;> split_ifs <;> omega

theorem foldl_perfStep_of_unique (lines : List (List Char)) (v : PerfVars)
    (hT : (lines.filter
      (fun x => strings.Contains x "Throughput Performance".data)).length ≤ 1)
    (hS : (lines.filter
      (fun x => strings.Contains x "Seek Time Performance".data)).length ≤ 1)
    (hL : (lines.filter (fun x => strings.Contains x "Command Timeout".data)).length ≤ 1)
    (hno2 : ∀ line ∈ lines,
      ¬ (strings.Contains line "Throughput Performance".data = true ∧
          strings.Contains line "Seek Time Performance".data = true) ∧
      ¬ (strings.Contains line "Throughput Performance".data = true ∧
          strings.Contains line "Command Timeout".data = true) ∧
      ¬ (strings.Contains line "Seek Time Performance".data = true ∧
          strings.Contains line "Command Timeout".data = true)) :
    lines.foldl perfStep v =
      { throughput := markerValue "Throughput Performance".data lines v.throughput
        seekTime := markerValue "Seek Time Performance".data lines v.seekTime
        latency := markerValue "Command Timeout".data lines v.latency
        count := v.count
          + (if 0 < markerValue "Throughput Performance".data lines 0 then 1 else 0)
          + (if 0 < markerValue "Seek Time Performance".data lines 0 then 1 else 0)
          + (if 0 < markerValue "Command Timeout".data lines 0 then 1 else 0) } := by
  induction lines generalizing v with
  | nil => rfl
  | cons line rest ih =>
    obtain ⟨hT', hTnil⟩ := filter_tail_of_unique hT
    obtain ⟨hS', hSnil⟩ := filter_tail_of_unique hS
    obtain ⟨hL', hLnil⟩ := filter_tail_of_unique hL
    obtain ⟨hTS, hTL, hSL⟩ := hno2 line (List.mem_cons_self _ _)
    rw [List.foldl_cons, ih (perfStep v line) hT' hS' hL'
      (fun l hl => hno2 l (List.mem_cons_of_mem _ hl))]
    by_cases h1 : strings.Contains line "Throughput Performance".data = true
    · have h2 : strings.Contains line "Seek Time Performance".data = false := by
        cases h : strings.Contains line "Seek Time Performance".data
        · rfl
        · exact absurd ⟨h1, h⟩ hTS
      have h3 : strings.Contains line "Command Timeout".data = false := by
        cases h : strings.Contains line "Command Timeout".data
        · rfl
        · exact absurd ⟨h1, h⟩ hTL
      rw [markerValue_cons_of_pos rest _ h1, markerValue_cons_of_pos rest _ h1,
        markerValue_cons_of_neg rest _ h2, markerValue_cons_of_neg rest _ h2,
        markerValue_cons_of_neg rest _ h3, markerValue_cons_of_neg rest _ h3,
        markerValue_of_absent _ (hTnil h1), markerValue_of_absent _ (hTnil h1),
        perfStep_throughput v h1]
      simp only [(count_step _ _ _ _).1]
    · have h1' : strings.Contains line "Throughput Performance".data = false := by
        simpa using h1
      by_cases h2 : strings.Contains line "Seek Time Performance".data = true
      · have h3 : strings.Contains line "Command Timeout".data = false := by
          cases h : strings.Contains line "Command Timeout".data
          · rfl
          · exact absurd ⟨h2, h⟩ hSL
        rw [markerValue_cons_of_neg rest _ h1', markerValue_cons_of_neg rest _ h1',
          markerValue_cons_of_pos rest _ h2, markerValue_cons_of_pos rest _ h2,
          markerValue_cons_of_neg rest _ h3, markerValue_cons_of_neg rest _ h3,
          markerValue_of_absent _ (hSnil h2), markerValue_of_absent _ (hSnil h2),
          perfStep_seekTime v h1' h2]
        simp only [(count_step _ _ _ _).2.1]
      · have h2' : strings.Contains line "Seek Time Performance".data = false := by
          simpa using h2
        by_cases h3 : strings.Contains line "Command Timeout".data = true
        · rw [markerValue_cons_of_neg rest _ h1', markerValue_cons_of_neg rest _ h1',
            markerValue_cons_of_neg rest _ h2', markerValue_cons_of_neg rest _ h2',
            markerValue_cons_of_pos rest _ h3, markerValue_cons_of_pos rest _ h3,
            markerValue_of_absent _ (hLnil h3), markerValue_of_absent _ (hLnil h3),
            perfStep_latency v h1' h2' h3]
          simp only [(count_step _ _ _ _).2.2]
        · have h3' : strings.Contains line "Command Timeout".data = false := by
            simpa using h3
          rw [markerValue_cons_of_neg rest _ h1', markerValue_cons_of_neg rest _ h1',
            markerValue_cons_of_neg rest _ h2', markerValue_cons_of_neg rest _ h2',
            markerValue_cons_of_neg rest _ h3', markerValue_cons_of_neg rest _ h3',
            perfStep_of_no_marker v h1' h2' h3']

end HdAnalyze

namespace HdAnalyze

theorem normalizeValue_of_nonneg {x : Int} (hx : 0 ≤ x) : normalizeValue x = min x 100 := by
  unfold normalizeValue
  split_ifs <;> omega

/-- After the loop, with at least one positive value counted and no negative value, the
result is the average of the three normalised terms; the final clamp changes nothing. -/
theorem perfFromVars_formula (v : PerfVars) (hc : v.count ≠ 0) (ht : 0 ≤ v.throughput)
    (hs : 0 ≤ v.seekTime) (hl : 0 ≤ v.latency) :
    perfFromVars v =
      (min v.throughput 100 + (100 - min v.seekTime 100) + (100 - min v.latency 100)) / 3 := by
  unfold perfFromVars
  rw [if_neg hc, normalizeValue_of_nonneg ht, normalizeValue_of_nonneg hs,
    normalizeValue_of_nonneg hl]
  have h1 : goSub 100 (min v.seekTime 100) = 100 - min v.seekTime 100 := by
    unfold goSub
    apply wrapInt_of_literal_bounds <;> omega
  have h2 : goSub 100 (min v.latency 100) = 100 - min v.latency 100 := by
    unfold goSub
    apply wrapInt_of_literal_bounds <;> omega
  have h3 : goAdd (min v.throughput 100) (100 - min v.seekTime 100) =
      min v.throughput 100 + (100 - min v.seekTime 100) := by
    unfold goAdd
    apply wrapInt_of_literal_bounds <;> omega
  have h4 : goAdd (min v.throughput 100 + (100 - min v.seekTime 100))
      (100 - min v.latency 100) =
      min v.throughput 100 + (100 - min v.seekTime 100) + (100 - min v.latency 100) := by
    unfold goAdd
    apply wrapInt_of_literal_bounds <;> omega
  have h5 : goQuo (min v.throughput 100 + (100 - min v.seekTime 100) +
      (100 - min v.latency 100)) 3 =
      (min v.throughput 100 + (100 - min v.seekTime 100) + (100 - min v.latency 100)) / 3 := by
    unfold goQuo
    rw [Int.tdiv_eq_ediv (by omega) (by omega)]
    apply wrapInt_of_literal_bounds <;> omega
  simp only [h1, h2, h3, h4, h5]
  split_ifs <;> omega

/-- C10, as stated, fails: an integer too large for an `int` is extracted as 0, not as
the integer written on the line; here the claim gives (100 + 90 + 100) / 3 = 96 and the
code (0 + 90 + 100) / 3 = 63. -/
theorem calculatePerformancePercentage_formula_out_of_range :
    ((strings.Split "Throughput Performance 99999999999999999999\nSeek Time Performance 10".data
        '\n').filter (fun x => strings.Contains x "Throughput Performance".data)).length ≤ 1 ∧
    ((strings.Split "Throughput Performance 99999999999999999999\nSeek Time Performance 10".data
        '\n').filter (fun x => strings.Contains x "Seek Time Performance".data)).length ≤ 1 ∧
    ((strings.Split "Throughput Performance 99999999999999999999\nSeek Time Performance 10".data
        '\n').filter (fun x => strings.Contains x "Command Timeout".data)).length ≤ 1 ∧
    (∀ line ∈
        strings.Split "Throughput Performance 99999999999999999999\nSeek Time Performance 10".data
          '\n',
      ¬ (strings.Contains line "Throughput Performance".data = true ∧
          strings.Contains line "Seek Time Performance".data = true) ∧
      ¬ (strings.Contains line "Throughput Performance".data = true ∧
          strings.Contains line "Command Timeout".data = true) ∧
      ¬ (strings.Contains line "Seek Time Performance".data = true ∧
          strings.Contains line "Command Timeout".data = true)) ∧
    markerInteger "Throughput Performance".data
      (strings.Split "Throughput Performance 99999999999999999999\nSeek Time Performance 10".data
        '\n') = 99999999999999999999 ∧
    markerInteger "Seek Time Performance".data
      (strings.Split "Throughput Performance 99999999999999999999\nSeek Time Performance 10".data
        '\n') = 10 ∧
    markerInteger "Command Timeout".data
      (strings.Split "Throughput Performance 99999999999999999999\nSeek Time Performance 10".data
        '\n') = 0 ∧
    (min (99999999999999999999 : Int) 100 + (100 - min 10 100) + (100 - min 0 100)) / 3 = 96 ∧
    calculatePerformancePercentage
      "Throughput Performance 99999999999999999999\nSeek Time Performance 10" = 63 := by
  decide

/-- C10, amended: when each of the three markers occurs on at most one line, no line
contains two markers, and t, s, l are the first integers on the Throughput Performance,
Seek Time Performance and Command Timeout lines (0 when the line or the integer is absent,
and also 0 when the integer is above the largest `int`) with at least one of them > 0,
`calculatePerformancePercentage` returns
(min(t,100) + (100 - min(s,100)) + (100 - min(l,100))) / 3. -/
theorem calculatePerformancePercentage_formula (report : String) (t s l : Int)
    (hT : ((strings.Split report.data '\n').filter
      (fun x => strings.Contains x "Throughput Performance".data)).length ≤ 1)
    (hS : ((strings.Split report.data '\n').filter
      (fun x => strings.Contains x "Seek Time Performance".data)).length ≤ 1)
    (hL : ((strings.Split report.data '\n').filter
      (fun x => strings.Contains x "Command Timeout".data)).length ≤ 1)
    (hno2 : ∀ line ∈ strings.Split report.data '\n',
      ¬ (strings.Contains line "Throughput Performance".data = true ∧
          strings.Contains line "Seek Time Performance".data = true) ∧
      ¬ (strings.Contains line "Throughput Performance".data = true ∧
          strings.Contains line "Command Timeout".data = true) ∧
      ¬ (strings.Contains line "Seek Time Performance".data = true ∧
          strings.Contains line "Command Timeout".data = true))
    (ht : t = fitOrZero
      (markerInteger "Throughput Performance".data (strings.Split report.data '\n')))
    (hs : s = fitOrZero
      (markerInteger "Seek Time Performance".data (strings.Split report.data '\n')))
    (hl : l = fitOrZero (markerInteger "Command Timeout".data (strings.Split report.data '\n')))
    (hpos : 0 < t ∨ 0 < s ∨ 0 < l) :
    calculatePerformancePercentage report =
      (min t 100 + (100 - min s 100) + (100 - min l 100)) / 3 := by
  unfold calculatePerformancePercentage
  simp only
  rw [foldl_perfStep_of_unique _ _ hT hS hL hno2]
  simp only [markerValue_eq, ← ht, ← hs, ← hl]
  have ht0 : 0 ≤ t := by rw [ht]; exact (fitOrZero_bounds _).1
  have hs0 : 0 ≤ s := by rw [hs]; exact (fitOrZero_bounds _).1
  have hl0 : 0 ≤ l := by rw [hl]; exact (fitOrZero_bounds _).1
  rw [perfFromVars_formula _ _ ht0 hs0 hl0]
  simp only
  split_ifs <;> omega

theorem calculatePerformancePercentage_formula_witness :
    calculatePerformancePercentage
      "Throughput Performance ... 80\nSeek Time Performance ... 10\nCommand Timeout ... 5" = 88 :=
  (calculatePerformancePercentage_formula
    "Throughput Performance ... 80\nSeek Time Performance ... 10\nCommand Timeout ... 5" 80 10 5
    (by decide) (by decide) (by decide) (by decide) (by decide) (by decide) (by decide)
    (by decide)).trans (by decide)

end HdAnalyze

namespace HdAnalyze

open regexp

/-! ### Health: which line decides -/

/-- C11, as stated, fails: the first line with both substrings, "RAW_VALUE and THRESHOLD",
carries no pair, yet the scan goes on to the next line and the percentage is 0, not 100. -/
theorem determineHealth_scan_goes_on :
    strings.Split "PASSED\nRAW_VALUE and THRESHOLD\nRAW_VALUE 50 THRESHOLD 25".data '\n' =
      ["PASSED".data, "RAW_VALUE and THRESHOLD".data, "RAW_VALUE 50 THRESHOLD 25".data] ∧
    strings.Contains "PASSED".data "RAW_VALUE".data = false ∧
    strings.Contains "RAW_VALUE and THRESHOLD".data "RAW_VALUE".data = true ∧
    strings.Contains "RAW_VALUE and THRESHOLD".data "THRESHOLD".data = true ∧
    healthPattern.FindStringSubmatch "RAW_VALUE and THRESHOLD".data = [] ∧
    determineHealth "PASSED\nRAW_VALUE and THRESHOLD\nRAW_VALUE 50 THRESHOLD 25" =
      some ("healthy", 0) := by
  decide

/-- C11, amended: the health percentage of a PASSED report is decided by the first line on
which the pattern `RAW_VALUE\s+(\d+).*THRESHOLD\s+(\d+)` matches. That line contains both
substrings, the scan stops there, and the percentage is computed from its two numbers
alone, whatever the later lines contain; the lines before it, also those that contain
both substrings without a parseable pair, are skipped. Only when no line carries a
parseable pair is the threshold 0 and the percentage 100. -/
theorem determineHealth_first_parseable_line :
    (∀ (report : String) (pre post : List (List Char)) (line m0 m1 m2 : List Char),
      strings.Contains report.data "PASSED".data = true →
      strings.Split report.data '\n' = pre ++ line :: post →
      (∀ x ∈ pre, healthPattern.FindStringSubmatch x = []) →
      healthPattern.FindStringSubmatch line = [m0, m1, m2] →
      strings.Contains line "RAW_VALUE".data = true ∧
      strings.Contains line "THRESHOLD".data = true ∧
      ∃ p, healthFromValues (strconv.Atoi m1).1 (strconv.Atoi m2).1 = some p ∧
        determineHealth report = some ("healthy", p)) ∧
    (∀ report : String, strings.Contains report.data "PASSED".data = true →
      (∀ x ∈ strings.Split report.data '\n', healthPattern.FindStringSubmatch x = []) →
      determineHealth report = some ("healthy", 100)) := by
  constructor
  · intro report pre post line m0 m1 m2 hP hsplit hpre hline
    obtain ⟨hR, hT, -, -⟩ := FindStringSubmatch_healthPattern_three hline
    obtain ⟨p, hp, -, -⟩ := healthFromValues_range (strconv.Atoi m1).1 (strconv.Atoi m2).1
    refine ⟨hR, hT, p, hp, ?_⟩
    have hv : scanRawThreshold (strings.Split report.data '\n') =
        ((strconv.Atoi m1).1, (strconv.Atoi m2).1) := by
      rw [hsplit, scanRawThreshold_first_match pre post hpre hline]
    exact determineHealth_of_values hP hv hp
  · intro report hP hnone
    exact determineHealth_of_values hP (scanRawThreshold_of_none _ hnone) rfl

theorem determineHealth_first_parseable_line_witness :
    (strings.Contains "RAW_VALUE 50 THRESHOLD 25".data "RAW_VALUE".data = true ∧
      strings.Contains "RAW_VALUE 50 THRESHOLD 25".data "THRESHOLD".data = true ∧
      ∃ p, healthFromValues (strconv.Atoi "50".data).1 (strconv.Atoi "25".data).1 = some p ∧
        determineHealth
          "PASSED\nRAW_VALUE and THRESHOLD\nRAW_VALUE 50 THRESHOLD 25\nRAW_VALUE 1 THRESHOLD 1" =
          some ("healthy", p)) ∧
    determineHealth "PASSED\nRAW_VALUE and THRESHOLD" = some ("healthy", 100) :=
  ⟨determineHealth_first_parseable_line.1
      "PASSED\nRAW_VALUE and THRESHOLD\nRAW_VALUE 50 THRESHOLD 25\nRAW_VALUE 1 THRESHOLD 1"
      ["PASSED".data, "RAW_VALUE and THRESHOLD".data] ["RAW_VALUE 1 THRESHOLD 1".data]
      "RAW_VALUE 50 THRESHOLD 25".data "RAW_VALUE 50 THRESHOLD 25".data "50".data "25".data
      (by decide) (by decide) (by decide) (by decide),
    determineHealth_first_parseable_line.2 "PASSED\nRAW_VALUE and THRESHOLD" (by decide)
      (by decide)⟩

/-! ### Numbers outside the `int` range -/

/-- C14 on the code: a digit sequence that does not fit an `int` makes `Atoi` return the
largest `int` with a range error. `calculateHealthPercentage` discards the error and keeps
that value, for the threshold as for the raw value, where `extractAttributeValue` returns
0; the percentage then differs from the one a raw value of 0 gives. -/
theorem scanRawThreshold_keeps_saturated_value :
    strconv.Atoi "99999999999999999999".data =
      (9223372036854775807, some strconv.NumError.ErrRange) ∧
    scanRawThreshold
      (strings.Split "PASSED\nRAW_VALUE 5 THRESHOLD 99999999999999999999".data '\n') =
      (5, 9223372036854775807) ∧
    scanRawThreshold
      (strings.Split "PASSED\nRAW_VALUE 99999999999999999999 THRESHOLD 92233720368547758".data
        '\n') = (9223372036854775807, 92233720368547758) ∧
    extractAttributeValue "Command Timeout 99999999999999999999".data = 0 ∧
    determineHealth "PASSED\nRAW_VALUE 99999999999999999999 THRESHOLD 92233720368547758" =
      some ("healthy", 1) ∧
    determineHealth "PASSED\nRAW_VALUE 0 THRESHOLD 92233720368547758" =
      some ("healthy", 100) := by
  decide

/-! ### Performance: one attribute per line -/

/-- C15, as stated, fails: a line with the first two markers sets the throughput only;
the seek time stays 0 and the score is (40 + 100 + 100) / 3 = 80. -/
theorem perfStep_two_markers :
    strings.Contains "Throughput Performance Seek Time Performance 40".data
      "Throughput Performance".data = true ∧
    strings.Contains "Throughput Performance Seek Time Performance 40".data
      "Seek Time Performance".data = true ∧
    extractAttributeValue "Throughput Performance Seek Time Performance 40".data = 40 ∧
    perfStep ⟨0, 0, 0, 0⟩ "Throughput Performance Seek Time Performance 40".data =
      ⟨40, 0, 0, 1⟩ ∧
    calculatePerformancePercentage "Throughput Performance Seek Time Performance 40" = 80 := by
  decide

/-- C15, amended: a line is used for at most one attribute, the first of Throughput
Performance, Seek Time Performance, Command Timeout whose marker it contains. That
attribute is set from the line's first integer (as `extractAttributeValue` reads it) and
the other two are left as they were; a line without a marker changes nothing. -/
theorem perfStep_one_attribute (v : PerfVars) (line : List Char) :
    (strings.Contains line "Throughput Performance".data = true →
      (perfStep v line).throughput = extractAttributeValue line ∧
      (perfStep v line).seekTime = v.seekTime ∧ (perfStep v line).latency = v.latency) ∧
    (strings.Contains line "Throughput Performance".data = false →
      strings.Contains line "Seek Time Performance".data = true →
      (perfStep v line).throughput = v.throughput ∧
      (perfStep v line).seekTime = extractAttributeValue line ∧
      (perfStep v line).latency = v.latency) ∧
    (strings.Contains line "Throughput Performance".data = false →
      strings.Contains line "Seek Time Performance".data = false →
      strings.Contains line "Command Timeout".data = true →
      (perfStep v line).throughput = v.throughput ∧
      (perfStep v line).seekTime = v.seekTime ∧
      (perfStep v line).latency = extractAttributeValue line) ∧
    (strings.Contains line "Throughput Performance".data = false →
      strings.Contains line "Seek Time Performance".data = false →
      strings.Contains line "Command Timeout".data = false →
      perfStep v line = v) := by
  refine ⟨fun h1 => ?_, fun h1 h2 => ?_, fun h1 h2 h3 => ?_, fun h1 h2 h3 => ?_⟩
  · rw [perfStep_throughput v h1]
    exact ⟨rfl, rfl, rfl⟩
  · rw [perfStep_seekTime v h1 h2]
    exact ⟨rfl, rfl, rfl⟩
  · rw [perfStep_latency v h1 h2 h3]
    exact ⟨rfl, rfl, rfl⟩
  · exact perfStep_of_no_marker v h1 h2 h3

theorem perfStep_one_attribute_witness :
    (perfStep ⟨7, 8, 9, 1⟩ "Throughput Performance Seek Time Performance 40".data).throughput =
      extractAttributeValue "Throughput Performance Seek Time Performance 40".data ∧
    (perfStep ⟨7, 8, 9, 1⟩ "Throughput Performance Seek Time Performance 40".data).seekTime = 8 ∧
    (perfStep ⟨7, 8, 9, 1⟩ "Throughput Performance Seek Time Performance 40".data).latency = 9 :=
  (perfStep_one_attribute ⟨7, 8, 9, 1⟩
    "Throughput Performance Seek Time Performance 40".data).1 (by decide)

end HdAnalyze

namespace HdAnalyze

/-! ### Performance: the final clamp -/

theorem normalizeValue_range (x : Int) : 0 ≤ normalizeValue x ∧ normalizeValue x ≤ 100 := by
  unfold normalizeValue
  split_ifs <;> omega

/-- The average of three terms between 0 and 100, computed on `int`, is the exact
average and lies between 0 and 100. -/
theorem average_of_normalized {a b c : Int} (ha : 0 ≤ a ∧ a ≤ 100) (hb : 0 ≤ b ∧ b ≤ 100)
    (hc : 0 ≤ c ∧ c ≤ 100) :
    goQuo (goAdd (goAdd a (goSub 100 b)) (goSub 100 c)) 3 = (a + (100 - b) + (100 - c)) / 3 ∧
    0 ≤ (a + (100 - b) + (100 - c)) / 3 ∧ (a + (100 - b) + (100 - c)) / 3 ≤ 100 := by
  have h1 : goSub 100 b = 100 - b := by
    unfold goSub
    apply wrapInt_of_literal_bounds <;> omega
  have h2 : goSub 100 c = 100 - c := by
    unfold goSub
    apply wrapInt_of_literal_bounds <;> omega
  have h3 : goAdd a (100 - b) = a + (100 - b) := by
    unfold goAdd
    apply wrapInt_of_literal_bounds <;> omega
  have h4 : goAdd (a + (100 - b)) (100 - c) = a + (100 - b) + (100 - c) := by
    unfold goAdd
    apply wrapInt_of_literal_bounds <;> omega
  have h5 : goQuo (a + (100 - b) + (100 - c)) 3 = (a + (100 - b) + (100 - c)) / 3 := by
    unfold goQuo
    rw [Int.tdiv_eq_ediv (by omega) (by omega)]
    apply wrapInt_of_literal_bounds <;> omega
  rw [h1, h2, h3, h4, h5]
  omega

theorem perfFromVars_eq_noClamp (v : PerfVars) : perfFromVars v = perfFromVarsNoClamp v := by
  unfold perfFromVars perfFromVarsNoClamp
  by_cases hc : v.count = 0
  · rw [if_pos hc, if_pos hc]
  · rw [if_neg hc, if_neg hc]
    have h := average_of_normalized (normalizeValue_range v.throughput)
      (normalizeValue_range v.seekTime) (normalizeValue_range v.latency)
    simp only
    rw [h.1]
    rw [if_neg (by omega), if_neg (by omega)]

/-- C16: for all integers throughput, seekTime and latency the average computed on line
122 of performance.go already lies between 0 and 100, and `calculatePerformancePercentage`
returns the same value as its variant without the final clamp of lines 123-127. -/
theorem calculatePerformancePercentage_clamp_redundant :
    (∀ throughput seekTime latency : Int,
      0 ≤ goQuo (goAdd (goAdd (normalizeValue throughput) (goSub 100 (normalizeValue seekTime)))
        (goSub 100 (normalizeValue latency))) 3 ∧
      goQuo (goAdd (goAdd (normalizeValue throughput) (goSub 100 (normalizeValue seekTime)))
        (goSub 100 (normalizeValue latency))) 3 ≤ 100) ∧
    (∀ v : PerfVars, perfFromVars v = perfFromVarsNoClamp v) ∧
    (∀ report : String,
      calculatePerformancePercentage report = calculatePerformancePercentageNoClamp report) := by
  refine ⟨fun t s l => ?_, perfFromVars_eq_noClamp, fun report => ?_⟩
  · have h := average_of_normalized (normalizeValue_range t) (normalizeValue_range s)
      (normalizeValue_range l)
    rw [h.1]
    exact h.2
  · unfold calculatePerformancePercentage calculatePerformancePercentageNoClamp
    exact perfFromVars_eq_noClamp _

/-! ### The progress bar -/

theorem length_repeatText (s : List Char) (n : Nat) :
    (strings.repeatText s n).length = n * s.length := by
  induction n with
  | zero => simp [strings.repeatText]
  | succ k ih =>
    rw [strings.repeatText, List.length_append, ih]
    ring

theorem Repeat_cell (cell : List Char) (count : Int) (hlen : cell.length = 1)
    (hbytes : strings.byteLen cell = 3) (h0 : 0 ≤ count) (h30 : count ≤ 30) :
    ∃ text, strings.Repeat cell count = some text ∧ (text.length : Int) = count := by
  refine ⟨strings.repeatText cell count.toNat, ?_, ?_⟩
  · unfold strings.Repeat
    rw [if_neg (by omega), hbytes, if_neg (by omega)]
  · rw [length_repeatText, hlen]
    omega

/-- The number of filled cells for a percentage between 0 and 100. -/
theorem filled_cells {p : Int} (h0 : 0 ≤ p) (h100 : p ≤ 100) :
    goQuo (goMul p barLength) 100 = p * 30 / 100 ∧
    0 ≤ p * 30 / 100 ∧ p * 30 / 100 ≤ 30 ∧
    goSub barLength (goQuo (goMul p barLength) 100) = 30 - p * 30 / 100 := by
  have hmul : goMul p barLength = p * 30 := by
    unfold goMul barLength
    apply wrapInt_of_literal_bounds <;> omega
  have hquo : goQuo (p * 30) 100 = p * 30 / 100 := by
    unfold goQuo
    rw [Int.tdiv_eq_ediv (by omega) (by omega)]
    apply wrapInt_of_literal_bounds <;> omega
  have hsub : goSub barLength (p * 30 / 100) = 30 - p * 30 / 100 := by
    unfold goSub barLength
    apply wrapInt_of_literal_bounds <;> omega
  rw [hmul, hquo, hsub]
  omega

theorem repeatText_singleton (c : Char) (n : Nat) :
    strings.repeatText [c] n = List.replicate n c := by
  induction n with
  | zero => rfl
  | succ k ih =>
    rw [strings.repeatText, ih, List.replicate_succ]
    rfl

/-- Repeating a one-character text of three bytes a number of times between 0 and 30. -/
theorem Repeat_cell_eq (c : Char) (count : Int) (hbytes : strings.byteLen [c] = 3)
    (h0 : 0 ≤ count) (h30 : count ≤ 30) :
    strings.Repeat [c] count = some (List.replicate count.toNat c) := by
  unfold strings.Repeat
  rw [if_neg (by omega), hbytes, if_neg (by omega), repeatText_singleton]

/-- The bar built for a percentage between 0 and 100: `filled` full cells followed by
`30 - filled` empty ones. -/
theorem progressBar_eq {p : Int} (h0 : 0 ≤ p) (h100 : p ≤ 100) :
    progressBar p = some (List.replicate (p * 30 / 100).toNat '█' ++
      List.replicate (30 - p * 30 / 100).toNat '░') := by
  obtain ⟨hf, hf0, hf30, he⟩ := filled_cells h0 h100
  have hfull := Repeat_cell_eq '█' (p * 30 / 100) (by decide) hf0 hf30
  have hempty := Repeat_cell_eq '░' (30 - p * 30 / 100) (by decide) (by omega) (by omega)
  have he2 : goSub barLength (p * 30 / 100) = 30 - p * 30 / 100 := by
    rw [hf] at he
    exact he
  unfold progressBar
  simp only [hf, he2]
  rw [hfull]
  simp only
  rw [hempty]

theorem progressBar_cells {p : Int} (h0 : 0 ≤ p) (h100 : p ≤ 100) :
    (List.replicate (p * 30 / 100).toNat '█' ++
      List.replicate (30 - p * 30 / 100).toNat '░').length = 30 := by
  rw [List.length_append, List.length_replicate, List.length_replicate]
  omega

/-- The text written by `drawProgressBar` for a percentage between 0 and 100. -/
theorem drawProgressBar_eq {p : Int} (h0 : 0 ≤ p) (h100 : p ≤ 100) :
    drawProgressBar p = some ("\n[".data ++
      (List.replicate (p * 30 / 100).toNat '█' ++ List.replicate (30 - p * 30 / 100).toNat '░') ++
      "] ".data ++ (toString p).data ++ "%\n".data) := by
  unfold drawProgressBar
  rw [progressBar_eq h0 h100]

theorem determineHealth_result_range {report status : String} {percentage : Int}
    (h : determineHealth report = some (status, percentage)) :
    0 ≤ percentage ∧ percentage ≤ 100 := by
  by_cases hP : strings.Contains report.data "PASSED".data = true
  · obtain ⟨p, hp, h0, h100⟩ := calculateHealthPercentage_range report
    rw [determineHealth_of_passed hP hp] at h
    injection h with h
    injection h with _ hp2
    rw [← hp2]
    exact ⟨h0, h100⟩
  · by_cases hF : strings.Contains report.data "FAILED".data = true
    · have hd : determineHealth report = some ("failing", 0) := by
        simp [determineHealth, hP, hF]
      rw [hd] at h
      injection h with h
      injection h with _ hp2
      rw [← hp2]
      omega
    · have hd : determineHealth report = some ("unknown", 50) := by
        simp [determineHealth, hP, hF]
      rw [hd] at h
      injection h with h
      injection h with _ hp2
      rw [← hp2]
      omega

/-- C17: for every percentage between 0 and 100, `drawProgressBar` computes
filled = percentage * 30 / 100 with 0 ≤ filled ≤ 30; both repeat counts, filled and
30 - filled, are non-negative, so neither `strings.Repeat` panics; the bar is filled full
cells followed by 30 - filled empty cells, exactly 30 cells, and the text written is that
bar between brackets followed by the percentage. So the percentage returned by
`determineHealth` or by `calculatePerformancePercentage` never makes the rendering fail. -/
theorem drawProgressBar_no_panic :
    (∀ p : Int, 0 ≤ p → p ≤ 100 →
      goQuo (goMul p barLength) 100 = p * 30 / 100 ∧
      0 ≤ goQuo (goMul p barLength) 100 ∧ goQuo (goMul p barLength) 100 ≤ 30 ∧
      0 ≤ goSub barLength (goQuo (goMul p barLength) 100) ∧
      strings.Repeat "█".data (goQuo (goMul p barLength) 100) =
        some (List.replicate (p * 30 / 100).toNat '█') ∧
      strings.Repeat "░".data (goSub barLength (goQuo (goMul p barLength) 100)) =
        some (List.replicate (30 - p * 30 / 100).toNat '░') ∧
      progressBar p = some (List.replicate (p * 30 / 100).toNat '█' ++
        List.replicate (30 - p * 30 / 100).toNat '░') ∧
      (List.replicate (p * 30 / 100).toNat '█' ++
        List.replicate (30 - p * 30 / 100).toNat '░').length = 30 ∧
      drawProgressBar p = some ("\n[".data ++
        (List.replicate (p * 30 / 100).toNat '█' ++
          List.replicate (30 - p * 30 / 100).toNat '░') ++
        "] ".data ++ (toString p).data ++ "%\n".data)) ∧
    (∀ (report : String) (status : String) (percentage : Int),
      determineHealth report = some (status, percentage) →
      drawProgressBar percentage = some ("\n[".data ++
        (List.replicate (percentage * 30 / 100).toNat '█' ++
          List.replicate (30 - percentage * 30 / 100).toNat '░') ++
        "] ".data ++ (toString percentage).data ++ "%\n".data)) ∧
    (∀ report : String,
      drawProgressBar (calculatePerformancePercentage report) = some ("\n[".data ++
        (List.replicate (calculatePerformancePercentage report * 30 / 100).toNat '█' ++
          List.replicate (30 - calculatePerformancePercentage report * 30 / 100).toNat '░') ++
        "] ".data ++ (toString (calculatePerformancePercentage report)).data ++
        "%\n".data)) := by
  refine ⟨fun p h0 h100 => ?_, fun report status percentage h => ?_, fun report => ?_⟩
  · obtain ⟨hf, hf0, hf30, he⟩ := filled_cells h0 h100
    refine ⟨hf, ?_, ?_, ?_, ?_, ?_, progressBar_eq h0 h100, progressBar_cells h0 h100,
      drawProgressBar_eq h0 h100⟩
    · rw [hf]; exact hf0
    · rw [hf]; exact hf30
    · rw [he]; omega
    · rw [hf]
      exact Repeat_cell_eq '█' (p * 30 / 100) (by decide) hf0 hf30
    · rw [he]
      exact Repeat_cell_eq '░' (30 - p * 30 / 100) (by decide) (by omega) (by omega)
  · obtain ⟨h0, h100⟩ := determineHealth_result_range h
    exact drawProgressBar_eq h0 h100
  · obtain ⟨h0, h100⟩ := perfFromVars_range
      ((strings.Split report.data '\n').foldl perfStep ⟨0, 0, 0, 0⟩)
    exact drawProgressBar_eq h0 h100

theorem drawProgressBar_no_panic_witness :
    progressBar 88 = some "██████████████████████████░░░░".data ∧
    drawProgressBar 88 = some "\n[██████████████████████████░░░░] 88%\n".data ∧
    drawProgressBar 0 = some "\n[░░░░░░░░░░░░░░░░░░░░░░░░░░░░░░] 0%\n".data ∧
    drawProgressBar (calculatePerformancePercentage "Throughput Performance 80") =
      some "\n[███████████████████████████░░░] 93%\n".data :=
  ⟨(drawProgressBar_no_panic.1 88 (by decide) (by decide)).2.2.2.2.2.2.1.trans (by decide),
    (drawProgressBar_no_panic.1 88 (by decide) (by decide)).2.2.2.2.2.2.2.2.trans (by decide),
    (drawProgressBar_no_panic.2.1 "PASSED\nRAW_VALUE 50 THRESHOLD 25" "healthy" 0
      (by decide)).trans (by decide),
    (drawProgressBar_no_panic.2.2 "Throughput Performance 80").trans (by decide)⟩

end HdAnalyze

namespace HdAnalyze

/-! ### Performance: lines that carry no positive value -/

theorem extractAttributeValue_nonneg (line : List Char) : 0 ≤ extractAttributeValue line := by
  rw [extractAttributeValue_eq]
  exact (fitOrZero_bounds _).1

theorem foldl_perfStep_throughput_of_absent (lines : List (List Char)) (v : PerfVars)
    (h : ∀ x ∈ lines, strings.Contains x "Throughput Performance".data = false) :
    (lines.foldl perfStep v).throughput = v.throughput := by
  induction lines generalizing v with
  | nil => rfl
  | cons x xs ih =>
    rw [List.foldl_cons, ih _ (fun y hy => h y (List.mem_cons_of_mem _ hy))]
    have h1 := h x (List.mem_cons_self _ _)
    by_cases h2 : strings.Contains x "Seek Time Performance".data = true
    · rw [perfStep_seekTime v h1 h2]
    · by_cases h3 : strings.Contains x "Command Timeout".data = true
      · rw [perfStep_latency v h1 (by simpa using h2) h3]
      · rw [perfStep_of_no_marker v h1 (by simpa using h2) (by simpa using h3)]

theorem foldl_perfStep_seekTime_of_absent (lines : List (List Char)) (v : PerfVars)
    (h : ∀ x ∈ lines, strings.Contains x "Seek Time Performance".data = false) :
    (lines.foldl perfStep v).seekTime = v.seekTime := by
  induction lines generalizing v with
  | nil => rfl
  | cons x xs ih =>
    rw [List.foldl_cons, ih _ (fun y hy => h y (List.mem_cons_of_mem _ hy))]
    have h2 := h x (List.mem_cons_self _ _)
    by_cases h1 : strings.Contains x "Throughput Performance".data = true
    · rw [perfStep_throughput v h1]
    · by_cases h3 : strings.Contains x "Command Timeout".data = true
      · rw [perfStep_latency v (by simpa using h1) h2 h3]
      · rw [perfStep_of_no_marker v (by simpa using h1) h2 (by simpa using h3)]

theorem foldl_perfStep_latency_of_absent (lines : List (List Char)) (v : PerfVars)
    (h : ∀ x ∈ lines, strings.Contains x "Command Timeout".data = false) :
    (lines.foldl perfStep v).latency = v.latency := by
  induction lines generalizing v with
  | nil => rfl
  | cons x xs ih =>
    rw [List.foldl_cons, ih _ (fun y hy => h y (List.mem_cons_of_mem _ hy))]
    have h3 := h x (List.mem_cons_self _ _)
    by_cases h1 : strings.Contains x "Throughput Performance".data = true
    · rw [perfStep_throughput v h1]
    · by_cases h2 : strings.Contains x "Seek Time Performance".data = true
      · rw [perfStep_seekTime v (by simpa using h1) h2]
      · rw [perfStep_of_no_marker v (by simpa using h1) (by simpa using h2) h3]

/-- A line without a positive value leaves the variables as they are when the attribute it
sets is still 0. -/
theorem perfStep_of_zero_line {line : List Char} (v : PerfVars)
    (hz : ¬ 0 < extractAttributeValue line)
    (hT : strings.Contains line "Throughput Performance".data = true → v.throughput = 0)
    (hS : strings.Contains line "Seek Time Performance".data = true → v.seekTime = 0)
    (hL : strings.Contains line "Command Timeout".data = true → v.latency = 0) :
    perfStep v line = v := by
  have he : extractAttributeValue line = 0 := by
    have := extractAttributeValue_nonneg line
    omega
  by_cases h1 : strings.Contains line "Throughput Performance".data = true
  · rw [perfStep_throughput v h1, he, ← hT h1]
    simp
  · by_cases h2 : strings.Contains line "Seek Time Performance".data = true
    · rw [perfStep_seekTime v (by simpa using h1) h2, he, ← hS h2]
      simp
    · by_cases h3 : strings.Contains line "Command Timeout".data = true
      · rw [perfStep_latency v (by simpa using h1) (by simpa using h2) h3, he, ← hL h3]
        simp
      · exact perfStep_of_no_marker v (by simpa using h1) (by simpa using h2)
          (by simpa using h3)

/-- C12, as stated, fails: the marker line without digits after "Throughput Performance 80"
sets the throughput back to 0 while the count stays 1, and the score drops from
(80 + 100 + 100) / 3 = 93 to (0 + 100 + 100) / 3 = 66. -/
theorem calculatePerformancePercentage_zero_line_overwrites :
    strings.Split "Throughput Performance 80".data '\n' =
      ["Throughput Performance 80".data] ++ [] ∧
    strings.Split "Throughput Performance 80\nThroughput Performance".data '\n' =
      ["Throughput Performance 80".data] ++ "Throughput Performance".data :: [] ∧
    extractAttributeValue "Throughput Performance".data = 0 ∧
    calculatePerformancePercentage "Throughput Performance 80" = 93 ∧
    calculatePerformancePercentage "Throughput Performance 80\nThroughput Performance" = 66 := by
  decide

end HdAnalyze

namespace HdAnalyze

/-! ### Performance: monotonicity -/

theorem normalizeValue_mono {a b : Int} (h : a ≤ b) : normalizeValue a ≤ normalizeValue b := by
  unfold normalizeValue
  split_ifs <;> omega

theorem perfFromVars_of_count_ne_zero (v : PerfVars) (hc : v.count ≠ 0) :
    perfFromVars v = (normalizeValue v.throughput + (100 - normalizeValue v.seekTime) +
      (100 - normalizeValue v.latency)) / 3 := by
  rw [perfFromVars_eq_noClamp]
  unfold perfFromVarsNoClamp
  rw [if_neg hc]
  exact (average_of_normalized (normalizeValue_range v.throughput)
    (normalizeValue_range v.seekTime) (normalizeValue_range v.latency)).1

/-- The score of `b` is at least the score of `w` when `b` has the larger throughput, the
smaller seek time and latency, and a zero count whenever `w` has one. -/
theorem perfFromVars_le_of_order (w b : PerfVars) (hT : w.throughput ≤ b.throughput)
    (hS : b.seekTime ≤ w.seekTime) (hL : b.latency ≤ w.latency)
    (hc : w.count = 0 → b.count = 0) : perfFromVars w ≤ perfFromVars b := by
  by_cases hb : b.count = 0
  · have h100 : perfFromVars b = 100 := by
      unfold perfFromVars
      rw [if_pos hb]
    rw [h100]
    exact (perfFromVars_range w).2
  · have hw : w.count ≠ 0 := fun h => hb (hc h)
    rw [perfFromVars_of_count_ne_zero w hw, perfFromVars_of_count_ne_zero b hb]
    have h1 := normalizeValue_mono hT
    have h2 := normalizeValue_mono hS
    have h3 := normalizeValue_mono hL
    omega

theorem perfStep_order_fields (x : List Char) (w b : PerfVars)
    (h : w.throughput ≤ b.throughput ∧ b.seekTime ≤ w.seekTime ∧ b.latency ≤ w.latency) :
    (perfStep w x).throughput ≤ (perfStep b x).throughput ∧
    (perfStep b x).seekTime ≤ (perfStep w x).seekTime ∧
    (perfStep b x).latency ≤ (perfStep w x).latency := by
  obtain ⟨hT, hS, hL⟩ := h
  by_cases h1 : strings.Contains x "Throughput Performance".data = true
  · rw [perfStep_throughput w h1, perfStep_throughput b h1]
    exact ⟨le_refl _, hS, hL⟩
  · by_cases h2 : strings.Contains x "Seek Time Performance".data = true
    · rw [perfStep_seekTime w (by simpa using h1) h2, perfStep_seekTime b (by simpa using h1) h2]
      exact ⟨hT, le_refl _, hL⟩
    · by_cases h3 : strings.Contains x "Command Timeout".data = true
      · rw [perfStep_latency w (by simpa using h1) (by simpa using h2) h3,
          perfStep_latency b (by simpa using h1) (by simpa using h2) h3]
        exact ⟨hT, hS, le_refl _⟩
      · rw [perfStep_of_no_marker w (by simpa using h1) (by simpa using h2) (by simpa using h3),
          perfStep_of_no_marker b (by simpa using h1) (by simpa using h2) (by simpa using h3)]
        exact ⟨hT, hS, hL⟩

/-- The counter grows by an amount that depends on the line only: 1 for a marker line
with a positive value, 0 otherwise. -/
theorem perfStep_count (x : List Char) (v : PerfVars) :
    (perfStep v x).count = v.count +
      (if (strings.Contains x "Throughput Performance".data = true ∨
          strings.Contains x "Seek Time Performance".data = true ∨
          strings.Contains x "Command Timeout".data = true) ∧ 0 < extractAttributeValue x
        then 1 else 0) := by
  by_cases h1 : strings.Contains x "Throughput Performance".data = true
  · rw [perfStep_throughput v h1]
    simp only [h1, true_or, true_and, gt_iff_lt]
    split_ifs <;> rfl
  · by_cases h2 : strings.Contains x "Seek Time Performance".data = true
    · rw [perfStep_seekTime v (by simpa using h1) h2]
      simp only [h2, true_or, or_true, true_and, gt_iff_lt]
      split_ifs <;> rfl
    · by_cases h3 : strings.Contains x "Command Timeout".data = true
      · rw [perfStep_latency v (by simpa using h1) (by simpa using h2) h3]
        simp only [h3, or_true, true_and, gt_iff_lt]
        split_ifs <;> rfl
      · rw [perfStep_of_no_marker v (by simpa using h1) (by simpa using h2) (by simpa using h3)]
        simp [h1, h2, h3]

theorem foldl_perfStep_order (lines : List (List Char)) (w b : PerfVars)
    (h : w.throughput ≤ b.throughput ∧ b.seekTime ≤ w.seekTime ∧ b.latency ≤ w.latency) :
    ((lines.foldl perfStep w).throughput ≤ (lines.foldl perfStep b).throughput ∧
      (lines.foldl perfStep b).seekTime ≤ (lines.foldl perfStep w).seekTime ∧
      (lines.foldl perfStep b).latency ≤ (lines.foldl perfStep w).latency) ∧
    (b.count ≤ w.count → (lines.foldl perfStep b).count ≤ (lines.foldl perfStep w).count) := by
  induction lines generalizing w b with
  | nil => exact ⟨h, fun hc => hc⟩
  | cons x xs ih =>
    rw [List.foldl_cons, List.foldl_cons]
    obtain ⟨hf, hcount⟩ := ih (perfStep w x) (perfStep b x) (perfStep_order_fields x w b h)
    refine ⟨hf, fun hc => hcount ?_⟩
    rw [perfStep_count x w, perfStep_count x b]
    omega

theorem foldl_perfStep_count_pos (lines : List (List Char)) (v : PerfVars)
    (h : 0 < v.count ∨ ∃ x ∈ lines,
      (strings.Contains x "Throughput Performance".data = true ∨
        strings.Contains x "Seek Time Performance".data = true ∨
        strings.Contains x "Command Timeout".data = true) ∧ 0 < extractAttributeValue x) :
    0 < (lines.foldl perfStep v).count := by
  induction lines generalizing v with
  | nil =>
    rcases h with h | ⟨x, hx, -⟩
    · exact h
    · exact absurd hx (List.not_mem_nil _)
  | cons y ys ih =>
    rw [List.foldl_cons]
    apply ih
    rcases h with h | ⟨x, hx, hpos⟩
    · left
      rw [perfStep_count]
      omega
    · rcases List.mem_cons.mp hx with rfl | hx
      · left
        rw [perfStep_count, if_pos hpos]
        omega
      · right
        exact ⟨x, hx, hpos⟩

end HdAnalyze

namespace HdAnalyze

theorem extractAttributeValue_of_fit {line : List Char} {n : Nat}
    (hn : firstInteger line = n) (hfit : (n : Int) ≤ maxInt) :
    extractAttributeValue line = n := by
  rw [extractAttributeValue_eq, hn]
  unfold fitOrZero
  rw [if_pos hfit]

/-- C13, as stated, fails. A throughput of 50 instead of 0 lowers the score from the
default 100 to (50 + 100 + 100) / 3 = 83; and a seek time too large for an `int` is read
as 0, which raises the score from (80 + 90 + 100) / 3 = 90 to 93. -/
theorem calculatePerformancePercentage_not_monotone :
    (firstInteger "Throughput Performance 0".data = 0 ∧
      firstInteger "Throughput Performance 50".data = 50 ∧
      calculatePerformancePercentage "Throughput Performance 0" = 100 ∧
      calculatePerformancePercentage "Throughput Performance 50" = 83) ∧
    (firstInteger "Seek Time Performance 10".data = 10 ∧
      firstInteger "Seek Time Performance 99999999999999999999".data = 99999999999999999999 ∧
      calculatePerformancePercentage "Throughput Performance 80\nSeek Time Performance 10" = 90 ∧
      calculatePerformancePercentage
        "Throughput Performance 80\nSeek Time Performance 99999999999999999999" = 93) := by
  decide

/-- C13, amended: let two reports differ only in one line, which carries the same markers
in both and whose first integers a ≤ b both fit an `int`. If the line is read as
Throughput Performance, the report with b does not score lower, provided a > 0 or some
other marker line of the report yields a positive value. If the line does not contain
"Throughput Performance" (it is read as Seek Time Performance or Command Timeout, or not
at all), the report with b does not score higher, also when a = 0. -/
theorem calculatePerformancePercentage_monotone (smaller larger : String)
    (pre post : List (List Char)) (line1 line2 : List Char) (a b : Nat)
    (hsmaller : strings.Split smaller.data '\n' = pre ++ line1 :: post)
    (hlarger : strings.Split larger.data '\n' = pre ++ line2 :: post)
    (hmT : strings.Contains line1 "Throughput Performance".data =
      strings.Contains line2 "Throughput Performance".data)
    (hmS : strings.Contains line1 "Seek Time Performance".data =
      strings.Contains line2 "Seek Time Performance".data)
    (hmL : strings.Contains line1 "Command Timeout".data =
      strings.Contains line2 "Command Timeout".data)
    (ha : firstInteger line1 = a) (hb : firstInteger line2 = b) (hab : a ≤ b)
    (hfit : (b : Int) ≤ maxInt) :
    (strings.Contains line1 "Throughput Performance".data = true →
      (0 < a ∨ ∃ x ∈ pre ++ post,
        (strings.Contains x "Throughput Performance".data = true ∨
          strings.Contains x "Seek Time Performance".data = true ∨
          strings.Contains x "Command Timeout".data = true) ∧ 0 < extractAttributeValue x) →
      calculatePerformancePercentage smaller ≤ calculatePerformancePercentage larger) ∧
    (strings.Contains line1 "Throughput Performance".data = false →
      calculatePerformancePercentage larger ≤ calculatePerformancePercentage smaller) := by
  have he1 : extractAttributeValue line1 = a :=
    extractAttributeValue_of_fit ha (le_trans (Int.ofNat_le.mpr hab) hfit)
  have he2 : extractAttributeValue line2 = b := extractAttributeValue_of_fit hb hfit
  have hle : extractAttributeValue line1 ≤ extractAttributeValue line2 := by
    rw [he1, he2]
    exact Int.ofNat_le.mpr hab
  unfold calculatePerformancePercentage
  simp only [hsmaller, hlarger, List.foldl_append, List.foldl_cons]
  constructor
  · intro h1 hpos
    have h2 : strings.Contains line2 "Throughput Performance".data = true := by
      rw [← hmT]
      exact h1
    have hfields := (foldl_perfStep_order post
      (perfStep (pre.foldl perfStep ⟨0, 0, 0, 0⟩) line1)
      (perfStep (pre.foldl perfStep ⟨0, 0, 0, 0⟩) line2) (by
        rw [perfStep_throughput _ h1, perfStep_throughput _ h2]
        exact ⟨hle, le_refl _, le_refl _⟩)).1
    have hcount : 0 < (post.foldl perfStep
        (perfStep (pre.foldl perfStep ⟨0, 0, 0, 0⟩) line1)).count := by
      apply foldl_perfStep_count_pos
      rcases hpos with h0 | ⟨x, hx, hxpos⟩
      · left
        have : 0 < extractAttributeValue line1 := by
          rw [he1]
          exact Int.ofNat_lt.mpr h0
        rw [perfStep_count, if_pos ⟨Or.inl h1, this⟩]
        omega
      · rcases List.mem_append.mp hx with hx | hx
        · left
          have := foldl_perfStep_count_pos pre ⟨0, 0, 0, 0⟩ (Or.inr ⟨x, hx, hxpos⟩)
          rw [perfStep_count]
          omega
        · right
          exact ⟨x, hx, hxpos⟩
    exact perfFromVars_le_of_order _ _ hfields.1 hfields.2.1 hfields.2.2 (fun h0 => by omega)
  · intro h1
    have h2 : strings.Contains line2 "Throughput Performance".data = false := by
      rw [← hmT]
      exact h1
    have hstart :
        (perfStep (pre.foldl perfStep ⟨0, 0, 0, 0⟩) line2).throughput ≤
          (perfStep (pre.foldl perfStep ⟨0, 0, 0, 0⟩) line1).throughput ∧
        (perfStep (pre.foldl perfStep ⟨0, 0, 0, 0⟩) line1).seekTime ≤
          (perfStep (pre.foldl perfStep ⟨0, 0, 0, 0⟩) line2).seekTime ∧
        (perfStep (pre.foldl perfStep ⟨0, 0, 0, 0⟩) line1).latency ≤
          (perfStep (pre.foldl perfStep ⟨0, 0, 0, 0⟩) line2).latency := by
      by_cases hs1 : strings.Contains line1 "Seek Time Performance".data = true
      · have hs2 : strings.Contains line2 "Seek Time Performance".data = true := by
          rw [← hmS]
          exact hs1
        rw [perfStep_seekTime _ h1 hs1, perfStep_seekTime _ h2 hs2]
        exact ⟨le_refl _, hle, le_refl _⟩
      · have hs1f : strings.Contains line1 "Seek Time Performance".data = false := by
          simpa using hs1
        have hs2f : strings.Contains line2 "Seek Time Performance".data = false := by
          rw [← hmS]
          exact hs1f
        by_cases hl1 : strings.Contains line1 "Command Timeout".data = true
        · have hl2 : strings.Contains line2 "Command Timeout".data = true := by
            rw [← hmL]
            exact hl1
          rw [perfStep_latency _ h1 hs1f hl1, perfStep_latency _ h2 hs2f hl2]
          exact ⟨le_refl _, le_refl _, hle⟩
        · have hl1f : strings.Contains line1 "Command Timeout".data = false := by
            simpa using hl1
          have hl2f : strings.Contains line2 "Command Timeout".data = false := by
            rw [← hmL]
            exact hl1f
          rw [perfStep_of_no_marker _ h1 hs1f hl1f, perfStep_of_no_marker _ h2 hs2f hl2f]
          exact ⟨le_refl _, le_refl _, le_refl _⟩
    have hcount0 : (perfStep (pre.foldl perfStep ⟨0, 0, 0, 0⟩) line1).count ≤
        (perfStep (pre.foldl perfStep ⟨0, 0, 0, 0⟩) line2).count := by
      rw [perfStep_count, perfStep_count, ← hmT, ← hmS, ← hmL]
      have hnn := extractAttributeValue_nonneg line1
      split_ifs with c1 c2 c2
      · omega
      · exact absurd ⟨c1.1, lt_of_lt_of_le c1.2 hle⟩ c2
      · omega
      · omega
    obtain ⟨hfields, hcount⟩ := foldl_perfStep_order post _ _ hstart
    have hc := hcount hcount0
    exact perfFromVars_le_of_order _ _ hfields.1 hfields.2.1 hfields.2.2 (fun h0 => by omega)

theorem calculatePerformancePercentage_monotone_witness :
    calculatePerformancePercentage "Throughput Performance 20\nCommand Timeout 5" ≤
      calculatePerformancePercentage "Throughput Performance 80\nCommand Timeout 5" ∧
    calculatePerformancePercentage "Seek Time Performance 30" ≤
      calculatePerformancePercentage "Seek Time Performance 0" :=
  ⟨(calculatePerformancePercentage_monotone "Throughput Performance 20\nCommand Timeout 5"
      "Throughput Performance 80\nCommand Timeout 5" [] ["Command Timeout 5".data]
      "Throughput Performance 20".data "Throughput Performance 80".data 20 80
      (by decide) (by decide) (by decide) (by decide) (by decide) (by decide) (by decide)
      (by decide) (by decide)).1 (by decide) (Or.inl (by decide)),
   (calculatePerformancePercentage_monotone "Seek Time Performance 0"
      "Seek Time Performance 30" [] [] "Seek Time Performance 0".data
      "Seek Time Performance 30".data 0 30
      (by decide) (by decide) (by decide) (by decide) (by decide) (by decide) (by decide)
      (by decide) (by decide)).2 (by decide)⟩

end HdAnalyze

namespace HdAnalyze

/-- C12, amended: in `calculatePerformancePercentage` only the counter depends on the
extracted value being strictly positive. A line read for an attribute (the first of
Throughput Performance, Seek Time Performance, Command Timeout whose marker it contains)
always overwrites that attribute with its extracted value, also when that value is 0, and
adds 1 to the counter only when the value is strictly positive. Inserting a marker line
whose extracted integer is 0 or absent does not change the returned percentage when no
line before the inserted one contains a marker that the inserted line contains. -/
theorem calculatePerformancePercentage_insert_zero_line :
    (∀ (v : PerfVars) (line : List Char),
      (perfStep v line).count = v.count +
        (if (strings.Contains line "Throughput Performance".data = true ∨
            strings.Contains line "Seek Time Performance".data = true ∨
            strings.Contains line "Command Timeout".data = true) ∧
            0 < extractAttributeValue line
          then 1 else 0) ∧
      (strings.Contains line "Throughput Performance".data = true →
        (perfStep v line).throughput = extractAttributeValue line) ∧
      (strings.Contains line "Throughput Performance".data = false →
        strings.Contains line "Seek Time Performance".data = true →
        (perfStep v line).seekTime = extractAttributeValue line) ∧
      (strings.Contains line "Throughput Performance".data = false →
        strings.Contains line "Seek Time Performance".data = false →
        strings.Contains line "Command Timeout".data = true →
        (perfStep v line).latency = extractAttributeValue line)) ∧
    (∀ (report inserted : String) (pre post : List (List Char)) (line : List Char),
      strings.Split report.data '\n' = pre ++ post →
      strings.Split inserted.data '\n' = pre ++ line :: post →
      ¬ 0 < extractAttributeValue line →
      (strings.Contains line "Throughput Performance".data = true →
        ∀ x ∈ pre, strings.Contains x "Throughput Performance".data = false) →
      (strings.Contains line "Seek Time Performance".data = true →
        ∀ x ∈ pre, strings.Contains x "Seek Time Performance".data = false) →
      (strings.Contains line "Command Timeout".data = true →
        ∀ x ∈ pre, strings.Contains x "Command Timeout".data = false) →
      calculatePerformancePercentage inserted = calculatePerformancePercentage report) := by
  constructor
  · intro v line
    refine ⟨perfStep_count line v, fun h1 => ?_, fun h1 h2 => ?_, fun h1 h2 h3 => ?_⟩
    · rw [perfStep_throughput v h1]
    · rw [perfStep_seekTime v h1 h2]
    · rw [perfStep_latency v h1 h2 h3]
  · intro report inserted pre post line hreport hinserted hz hT hS hL
    unfold calculatePerformancePercentage
    simp only [hreport, hinserted, List.foldl_append, List.foldl_cons]
    rw [perfStep_of_zero_line _ hz
      (fun h => by rw [foldl_perfStep_throughput_of_absent _ _ (hT h)])
      (fun h => by rw [foldl_perfStep_seekTime_of_absent _ _ (hS h)])
      (fun h => by rw [foldl_perfStep_latency_of_absent _ _ (hL h)])]

theorem calculatePerformancePercentage_insert_zero_line_witness :
    (perfStep ⟨80, 0, 0, 1⟩ "Throughput Performance".data).throughput = 0 ∧
    (perfStep ⟨80, 0, 0, 1⟩ "Throughput Performance".data).count = 1 ∧
    calculatePerformancePercentage
      "Seek Time Performance 10\nThroughput Performance\nThroughput Performance 80" =
    calculatePerformancePercentage "Seek Time Performance 10\nThroughput Performance 80" :=
  ⟨((calculatePerformancePercentage_insert_zero_line.1 ⟨80, 0, 0, 1⟩
      "Throughput Performance".data).2.1 (by decide)).trans (by decide),
    (calculatePerformancePercentage_insert_zero_line.1 ⟨80, 0, 0, 1⟩
      "Throughput Performance".data).1.trans (by decide),
    calculatePerformancePercentage_insert_zero_line.2
      "Seek Time Performance 10\nThroughput Performance 80"
      "Seek Time Performance 10\nThroughput Performance\nThroughput Performance 80"
      ["Seek Time Performance 10".data] ["Throughput Performance 80".data]
      "Throughput Performance".data
      (by decide) (by decide) (by decide) (by decide) (by decide) (by decide)⟩

end HdAnalyze
